import Mathlib

/-!
# rspamd multipattern: a shallow embedding of `src/libutil/multipattern.c`

The C file is compiled for exactly one of two matching backends, chosen with
`WITH_HYPERSCAN`.  The embedding keeps both `#ifdef` branches and selects one
with a `Backend` argument.  The two matching libraries themselves (Hyperscan
and the aho-corasick trie) are not part of the file; what they answer is
collected in an `Engines` record that every operation takes as an argument.

Conventions:
* a `g_assert` that fails, and a read outside an array, end the run: the
  operation returns `none`;
* `guint` arithmetic is arithmetic modulo `2 ^ 32`;
* a C string is the list of its bytes before the terminating NUL; a nullable
  string argument is an `Option`;
* the handle `mp` of a set is a valid pointer, so that `g_assert (mp != NULL)`
  holds by typing;
* the user callback may read and write user state behind its `context`
  pointer; that state is the type parameter `W`, threaded explicitly.
-/

namespace Multipattern

/-! ## Plain data -/

/-- A NUL-terminated C string, as its bytes before the terminator. -/
abbrev CStr := List Char

/-- Reduction of a natural number to the range of `guint` (32 bits). -/
def guint (n : Nat) : Nat := n % 4294967296

/-- The value of an integer converted to `gint`, a signed integer of 32 bits
in two's complement. -/
def gint (n : Int) : Int := (n + 2147483648) % 4294967296 - 2147483648

/-- Value of `HS_SUCCESS` in `hs_common.h`. -/
def HS_SUCCESS : Int := 0

/-- Value of `HS_SCAN_TERMINATED` in `hs_common.h`. -/
def HS_SCAN_TERMINATED : Int := -3

/-- Value of `HS_FLAG_CASELESS` in `hs_compile.h`. -/
def HS_FLAG_CASELESS : Nat := 1

/-- Value of `HS_FLAG_UTF8` in `hs_compile.h`. -/
def HS_FLAG_UTF8 : Nat := 32

/-- Value of `HS_MODE_BLOCK` in `hs_compile.h`. -/
def HS_MODE_BLOCK : Nat := 1

/-- Value of `EINVAL` in `errno.h`. -/
def EINVAL : Int := 22

/-- Modelled from the spec: `multipattern.h`, which declares
`enum rspamd_multipattern_flags`, is not among the sources.  The spec names
two independent flag bits, `CASE_INSENSITIVE` and `UNICODE_MODE`, and a
default without either; they are taken as bit 0 and bit 1. -/
def RSPAMD_MULTIPATTERN_DEFAULT : Nat := 0

/-- Modelled from the spec: the `CASE_INSENSITIVE` bit of the flags enum
(see `RSPAMD_MULTIPATTERN_DEFAULT`). -/
def RSPAMD_MULTIPATTERN_ICASE : Nat := 1

/-- Modelled from the spec: the `UNICODE_MODE` bit of the flags enum
(see `RSPAMD_MULTIPATTERN_DEFAULT`). -/
def RSPAMD_MULTIPATTERN_UTF8 : Nat := 2

/-- The build-time choice made with `WITH_HYPERSCAN`. -/
inductive Backend where
  | hyperscan
  | acism
deriving DecidableEq, Repr

/-- The record `hs_compile_error_t` of Hyperscan: a message and the number of
the expression the error belongs to.  The library documents the number as
zero-based, and as negative when the error is not specific to an
expression. -/
structure hs_compile_error_t where
  message : List Char
  expression : Int
deriving DecidableEq, Repr

/-- A compiled Hyperscan database.  The library keeps its layout private; the
handle is represented by the expression table it was built from. -/
structure hs_database_t where
  expressions : List CStr
  flags : List Nat
  ids : List Nat
  elements : Nat
  mode : Nat
deriving DecidableEq, Repr

/-- Hyperscan scratch space, allocated for one database. -/
structure hs_scratch_t where
  db : hs_database_t
deriving DecidableEq, Repr

/-- One match event of Hyperscan, the arguments of `match_event_handler`. -/
structure hs_match where
  id : Nat
  from_ : Nat
  to_ : Nat
  flags : Nat
deriving DecidableEq, Repr

/-- The record `ac_trie_pat_t`: a pattern pointer and its length. -/
structure ac_trie_pat_t where
  ptr : CStr
  len : Nat
deriving DecidableEq, Repr

/-- A built trie.  The library keeps its layout private; the handle is
represented by the string vector it was built from. -/
structure ac_trie_t where
  strv : List ac_trie_pat_t
  nstrs : Nat
deriving DecidableEq, Repr

/-- The record `struct rspamd_multipattern`.  `db`, `scratch`, `hs_pats`,
`hs_ids`, `hs_flags` exist under `WITH_HYPERSCAN`, `t` and `pats` otherwise;
the fields of the branch that is not built stay at their zero value. -/
structure rspamd_multipattern where
  db : Option hs_database_t
  scratch : Option hs_scratch_t
  hs_pats : List CStr
  hs_ids : List Nat
  hs_flags : List Nat
  t : Option ac_trie_t
  pats : List ac_trie_pat_t
  compiled : Bool
  cnt : Nat
  flags : Nat
deriving DecidableEq, Repr

/-- A `GError`: domain quark, code and message. -/
structure GError where
  domain : String
  code : Int
  message : List Char
deriving DecidableEq, Repr

/-- What the two matching libraries answer.  Nothing is assumed about these
functions beyond their C signatures; their headers are not among the sources,
and arguments are handed to them as they are.

* `hs_populate_platform`: the status the call returns;
* `hs_compile_multi expressions flags ids elements mode`: the database, or
  the compile error;
* `hs_alloc_scratch db`: the scratch space, or the failure status;
* `hs_scan db data length flags scratch`: the failure status when the library
  refuses the call, and otherwise the match events of the automaton on the
  data, in the order the automaton raises them;
* `acism_create strv nstrs`: the trie;
* `acism_lookup psp text len state caseless`: the match events
  `(strnum, textpos)` of the trie on the text, in the order it raises them. -/
structure Engines where
  hs_populate_platform : Int
  hs_compile_multi :
    List CStr → List Nat → List Nat → Nat → Nat → Except hs_compile_error_t hs_database_t
  hs_alloc_scratch : hs_database_t → Except Int hs_scratch_t
  hs_scan :
    Option hs_database_t → List Char → Nat → Nat → Option hs_scratch_t →
      Except Int (List hs_match)
  acism_create : List ac_trie_pat_t → Nat → ac_trie_t
  acism_lookup : Option ac_trie_t → List Char → Nat → Int → Nat → List (Int × Int)

/-! ## Builder -/

/-- The function `rspamd_multipattern_quark`. -/
def rspamd_multipattern_quark : String := "multipattern"

/-- The function `strlen`. -/
def strlen (s : CStr) : Nat := s.length

/-- The function `rspamd_multipattern_pattern_filter`: `strdup (pattern)`. -/
def rspamd_multipattern_pattern_filter (pattern : CStr) (_flags : Nat) : CStr :=
  pattern

/-- The function `rspamd_multipattern_create`: `g_slice_alloc0`, the flags, and
empty arrays. -/
def rspamd_multipattern_create (flags : Nat) : rspamd_multipattern :=
  { db := none, scratch := none, hs_pats := [], hs_ids := [], hs_flags := [],
    t := none, pats := [], compiled := false, cnt := 0, flags := flags }

/-- The function `rspamd_multipattern_create_sized`.  The reserved capacity of
the arrays is not observable; the assertion on `npatterns` is. -/
def rspamd_multipattern_create_sized (npatterns : Nat) (flags : Nat) :
    Option rspamd_multipattern :=
  if npatterns > 0 then
    some { db := none, scratch := none, hs_pats := [], hs_ids := [], hs_flags := [],
           t := none, pats := [], compiled := false, cnt := 0, flags := flags }
  else none

/-- The function `rspamd_multipattern_add_pattern`.  In the Hyperscan branch
the counter is stored through the `gint` variable `fl` into `hs_ids`, which
`hs_compile_multi` reads back as `unsigned int`: the stored id is the counter
itself. -/
def rspamd_multipattern_add_pattern (b : Backend) (mp : rspamd_multipattern)
    (pattern : Option CStr) : Option rspamd_multipattern :=
  match pattern with
  | none => none
  | some pattern =>
    if mp.compiled then none
    else
      match b with
      | Backend.hyperscan =>
        let fl : Nat := 0
        let fl := if mp.flags &&& RSPAMD_MULTIPATTERN_ICASE ≠ 0 then fl ||| HS_FLAG_CASELESS else fl
        let fl := if mp.flags &&& RSPAMD_MULTIPATTERN_UTF8 ≠ 0 then fl ||| HS_FLAG_UTF8 else fl
        let np := rspamd_multipattern_pattern_filter pattern mp.flags
        some { mp with
          hs_flags := mp.hs_flags ++ [fl]
          hs_pats := mp.hs_pats ++ [np]
          hs_ids := mp.hs_ids ++ [mp.cnt]
          cnt := guint (mp.cnt + 1) }
      | Backend.acism =>
        let ptr := rspamd_multipattern_pattern_filter pattern mp.flags
        some { mp with
          pats := mp.pats ++ [{ ptr := ptr, len := strlen ptr }]
          cnt := guint (mp.cnt + 1) }

/-- The `for` loop of `rspamd_multipattern_create_full`, at index `i` with
`todo` iterations left.  Reading `patterns[i]` outside the array ends the
run. -/
def create_full_loop (b : Backend) (patterns : List (Option CStr)) :
    Nat → Nat → rspamd_multipattern → Option rspamd_multipattern
  | 0, _, mp => some mp
  | todo + 1, i, mp =>
    match patterns[i]? with
    | none => none
    | some p =>
      match rspamd_multipattern_add_pattern b mp p with
      | none => none
      | some mp1 => create_full_loop b patterns todo (i + 1) mp1

/-- The function `rspamd_multipattern_create_full`. -/
def rspamd_multipattern_create_full (b : Backend) (patterns : Option (List (Option CStr)))
    (npatterns : Nat) (flags : Nat) : Option rspamd_multipattern :=
  if npatterns > 0 then
    match patterns with
    | none => none
    | some arr =>
      match rspamd_multipattern_create_sized npatterns flags with
      | none => none
      | some mp => create_full_loop b arr npatterns 0 mp
  else none

/-! ## Compiler -/

/-- The macro `g_array_index` on an array of strings; an index outside the
array has no defined value. -/
def g_array_index (a : List CStr) (i : Int) : Option CStr :=
  if 0 ≤ i then a[i.toNat]? else none

/-- What `rspamd_multipattern_compile` hands back: the returned `gboolean`,
the set afterwards, and the error stored through `err`. -/
structure CompileResult where
  ret : Bool
  mp : rspamd_multipattern
  err : Option GError
deriving DecidableEq, Repr

/-- The message built by `g_set_error` in `rspamd_multipattern_compile`. -/
def compile_error_message (pat : CStr) (reason : List Char) : List Char :=
  "cannot create tree of regexp when processing '".toList ++ pat ++ "': ".toList ++ reason

/-- The function `rspamd_multipattern_compile`.  `err` tells whether the
`GError **` argument is non-NULL. -/
def rspamd_multipattern_compile (E : Engines) (b : Backend) (mp : rspamd_multipattern)
    (err : Bool) : Option CompileResult :=
  if mp.compiled then none
  else
    match b with
    | Backend.hyperscan =>
      if E.hs_populate_platform = HS_SUCCESS then
        match E.hs_compile_multi mp.hs_pats mp.hs_flags mp.hs_ids mp.cnt HS_MODE_BLOCK with
        | Except.error hs_errors =>
          match g_array_index mp.hs_pats hs_errors.expression with
          | none => none
          | some pat =>
            some { ret := false, mp := mp,
                   err := if err then
                     some { domain := rspamd_multipattern_quark, code := EINVAL,
                            message := compile_error_message pat hs_errors.message }
                   else none }
        | Except.ok db =>
          match E.hs_alloc_scratch db with
          | Except.error _ => none
          | Except.ok scratch =>
            some { ret := true,
                   mp := { mp with db := some db, scratch := some scratch, compiled := true },
                   err := none }
      else none
    | Backend.acism =>
      some { ret := true,
             mp := { mp with t := some (E.acism_create mp.pats mp.cnt), compiled := true },
             err := none }

/-! ## Scanner and dispatch bridge -/

/-- Modelled from the spec: `rspamd_multipattern_cb_t` is declared in
`multipattern.h`, which is not among the sources.  The spec gives the callback
as `(pattern_set, pattern_id : integer, match_end_offset : integer, buffer,
buffer_len, user_data) -> integer`; the last argument and second result here
are the user state behind `user_data`. -/
abbrev rspamd_multipattern_cb_t (W : Type) : Type :=
  rspamd_multipattern → Int → Int → List Char → Nat → Nat → W → Int × W

/-- The record `struct rspamd_multipattern_cbdata`. -/
structure rspamd_multipattern_cbdata (W : Type) where
  mp : rspamd_multipattern
  in_ : List Char
  len : Nat
  cb : rspamd_multipattern_cb_t W
  ud : Nat
  nfound : Nat
  ret : Int

/-- The function `rspamd_multipattern_hs_cb`. -/
def rspamd_multipattern_hs_cb {W : Type} (id : Nat) (_from : Nat) (to_ : Nat) (_flags : Nat)
    (ud : rspamd_multipattern_cbdata W × W) : Int × (rspamd_multipattern_cbdata W × W) :=
  let cbd := ud.1
  let r := cbd.cb cbd.mp id to_ cbd.in_ cbd.len cbd.ud ud.2
  (r.1, ({ cbd with nfound := guint (cbd.nfound + 1), ret := r.1 }, r.2))

/-- The function `rspamd_multipattern_acism_cb`. -/
def rspamd_multipattern_acism_cb {W : Type} (strnum : Int) (textpos : Int)
    (context : rspamd_multipattern_cbdata W × W) : Int × (rspamd_multipattern_cbdata W × W) :=
  let cbd := context.1
  let r := cbd.cb cbd.mp strnum textpos cbd.in_ cbd.len cbd.ud context.2
  (r.1, ({ cbd with nfound := guint (cbd.nfound + 1), ret := r.1 }, r.2))

/-- Modelled from the spec: the scan loops of the two libraries are not among
the sources.  By the spec (sections 4.3 and 9) a backend raises its match
events in discovery order through its native callback, and a nonzero return
of that callback is its signal to stop scanning.  `deliver handler evs ctx`
hands the events to `handler` in order until one call returns nonzero; it
gives that value (`0` when every event was handed over) and the final
context. -/
def deliver {ε σ : Type} (handler : ε → σ → Int × σ) : List ε → σ → Int × σ
  | [], ctx => (0, ctx)
  | e :: es, ctx =>
    let r := handler e ctx
    if r.1 ≠ 0 then r else deliver handler es r.2

/-- Modelled from the spec: `hs_scan` of the Hyperscan library.  The events
are delivered, and the status is `HS_SCAN_TERMINATED` when the callback asked
to stop and `HS_SUCCESS` when the data was scanned to the end.  The library
documents a third outcome, "other values on failure": a call it refuses
returns its failure status without raising an event. -/
def hs_scan {σ : Type} (E : Engines) (db : Option hs_database_t) (data : List Char)
    (length : Nat) (flags : Nat) (scratch : Option hs_scratch_t)
    (onEvent : Nat → Nat → Nat → Nat → σ → Int × σ) (context : σ) : Int × σ :=
  match E.hs_scan db data length flags scratch with
  | Except.error status => (status, context)
  | Except.ok evs =>
    let r := deliver (fun (m : hs_match) ctx => onEvent m.id m.from_ m.to_ m.flags ctx) evs context
    (if r.1 ≠ 0 then HS_SCAN_TERMINATED else HS_SUCCESS, r.2)

/-- Modelled from the spec: `acism_lookup` of the aho-corasick library.  The
events are delivered; the result is the nonzero value on which the callback
stopped the scan, or `0`. -/
def acism_lookup {σ : Type} (E : Engines) (psp : Option ac_trie_t) (text : List Char)
    (len : Nat) (cb : Int → Int → σ → Int × σ) (context : σ) (state : Int) (caseless : Nat) :
    Int × σ :=
  deliver (fun (m : Int × Int) ctx => cb m.1 m.2 ctx) (E.acism_lookup psp text len state caseless)
    context

/-- What `rspamd_multipattern_lookup` hands back: the returned `gint`, the
value stored through `pnfound` (when that pointer is non-NULL), the user
state, and the set, which the function only reads. -/
structure LookupResult (W : Type) where
  ret : Int
  pnfound : Option Nat
  world : W
  mp : rspamd_multipattern

/-- The function `rspamd_multipattern_lookup`.  `pnfound` tells whether the
`guint *` argument is non-NULL; `w` is the user state before the scan. -/
def rspamd_multipattern_lookup {W : Type} (E : Engines) (b : Backend)
    (mp : rspamd_multipattern) (in_ : List Char) (len : Nat) (cb : rspamd_multipattern_cb_t W)
    (ud : Nat) (pnfound : Bool) (w : W) : Option (LookupResult W) :=
  if mp.compiled then
    let cbd : rspamd_multipattern_cbdata W :=
      { mp := mp, in_ := in_, len := len, cb := cb, ud := ud, nfound := 0, ret := 0 }
    let r : Int × (rspamd_multipattern_cbdata W × W) :=
      match b with
      | Backend.hyperscan =>
        let s := hs_scan E mp.db in_ len 0 mp.scratch rspamd_multipattern_hs_cb (cbd, w)
        if s.1 = HS_SUCCESS then (0, s.2)
        else if s.1 = HS_SCAN_TERMINATED then (s.2.1.ret, s.2)
        else s
      | Backend.acism =>
        acism_lookup E mp.t in_ len rspamd_multipattern_acism_cb (cbd, w) 0
          (mp.flags &&& RSPAMD_MULTIPATTERN_ICASE)
    some { ret := r.1, pnfound := if pnfound then some r.2.1.nfound else none,
           world := r.2.2, mp := mp }
  else none

/-! ## Observing a scan -/

/-- One invocation of the user callback: the arguments it received and the
value it returned. -/
structure CbCall where
  mp : rspamd_multipattern
  strnum : Int
  textpos : Int
  text : List Char
  len : Nat
  context : Nat
  result : Int
deriving DecidableEq, Repr

/-- The callback `cb`, instrumented: beside the user state it keeps the list of
its invocations, oldest first. -/
def traced {W : Type} (cb : rspamd_multipattern_cb_t W) :
    rspamd_multipattern_cb_t (W × List CbCall) :=
  fun mp strnum textpos text len context w =>
    let r := cb mp strnum textpos text len context w.1
    (r.1, (r.2, w.2 ++ [{ mp := mp, strnum := strnum, textpos := textpos, text := text,
                          len := len, context := context, result := r.1 }]))

/-- The match events `(pattern id, end offset)` that the backend of the build
raises for a scan of `in_`, as `rspamd_multipattern_lookup` requests it, or
the failure status of a refused `hs_scan` call. -/
def match_events (E : Engines) (b : Backend) (mp : rspamd_multipattern) (in_ : List Char)
    (len : Nat) : Except Int (List (Int × Int)) :=
  match b with
  | Backend.hyperscan =>
    match E.hs_scan mp.db in_ len 0 mp.scratch with
    | Except.error status => Except.error status
    | Except.ok evs => Except.ok (evs.map fun m => ((m.id : Int), (m.to_ : Int)))
  | Backend.acism =>
    Except.ok (E.acism_lookup mp.t in_ len 0 (mp.flags &&& RSPAMD_MULTIPATTERN_ICASE))

/-- The values the callback returns when it is handed the events one after the
other from user state `w`, whatever it returns. -/
def answers {W : Type} (cb : rspamd_multipattern_cb_t W) (mp : rspamd_multipattern)
    (in_ : List Char) (len : Nat) (ud : Nat) : List (Int × Int) → W → List Int
  | [], _ => []
  | e :: es, w =>
    let r := cb mp e.1 e.2 in_ len ud w
    r.1 :: answers cb mp in_ len ud es r.2

/-- The user state after the callback was handed all the events from `w`. -/
def world_after {W : Type} (cb : rspamd_multipattern_cb_t W) (mp : rspamd_multipattern)
    (in_ : List Char) (len : Nat) (ud : Nat) : List (Int × Int) → W → W
  | [], w => w
  | e :: es, w => world_after cb mp in_ len ud es (cb mp e.1 e.2 in_ len ud w).2

/-- The invocation record of a callback call on event `e` that returned `r`. -/
def call_of (mp : rspamd_multipattern) (in_ : List Char) (len : Nat) (ud : Nat) (r : Int)
    (e : Int × Int) : CbCall :=
  { mp := mp, strnum := e.1, textpos := e.2, text := in_, len := len, context := ud,
    result := r }

/-- The arguments of an invocation, without the returned value. -/
def CbCall.args (c : CbCall) : rspamd_multipattern × Int × Int × List Char × Nat × Nat :=
  (c.mp, c.strnum, c.textpos, c.text, c.len, c.context)

/-- The arguments with which the scan of `in_` must hand event `e` to the
callback. -/
def args_of (mp : rspamd_multipattern) (in_ : List Char) (len : Nat) (ud : Nat)
    (e : Int × Int) : rspamd_multipattern × Int × Int × List Char × Nat × Nat :=
  (mp, e.1, e.2, in_, len, ud)

/-- The bridge callback of the build on an event `(pattern id, end offset)`:
`rspamd_multipattern_hs_cb` and `rspamd_multipattern_acism_cb` have the same
body. -/
def bridge {W : Type} (m : Int × Int) (ctx : rspamd_multipattern_cbdata W × W) :
    Int × (rspamd_multipattern_cbdata W × W) :=
  rspamd_multipattern_acism_cb m.1 m.2 ctx

/-- From the list of answers: how many invocations a scan makes, which stops
after the first nonzero answer. -/
def stop_count : List Int → Nat
  | [] => 0
  | r :: rs => if r ≠ 0 then 1 else stop_count rs + 1

/-- From the list of answers: the first nonzero answer, `0` when there is
none. -/
def stop_value : List Int → Int
  | [] => 0
  | r :: rs => if r ≠ 0 then r else stop_value rs

/-- From the list of answers: the answer of the last invocation made, `d` when
none is made. -/
def last_answer (d : Int) : List Int → Int
  | [] => d
  | r :: rs => if r ≠ 0 then r else last_answer r rs

/-! ## The two matching engines, modelled from the spec

Neither library is among the sources.  The definitions below model what the
spec says of them (sections 4.2, 4.3 and 8); they are used where a statement
is about the matches themselves, and as concrete engines in examples.
Everything above takes the engines as an argument and does not depend on
this section. -/

/-- Modelled from the spec: the comparison mode of a scan (section 4.2).  With
case-insensitivity on, two bytes are compared after ASCII lower-casing. -/
def fold_case (caseless : Bool) (c : Char) : Char :=
  if caseless then c.toLower else c

/-- Modelled from the spec: section 8 speaks of the occurrences of a literal
pattern in the input, each with an end offset one past its last byte.
`occurs_at caseless p text e` holds when the `p.length` bytes of `text` that
end at offset `e` equal `p` under the comparison mode. -/
def occurs_at (caseless : Bool) (p : List Char) (text : List Char) (e : Nat) : Bool :=
  decide (p.length ≤ e) && decide (e ≤ text.length) &&
    (((text.take e).drop (e - p.length)).map (fold_case caseless) ==
      p.map (fold_case caseless))

/-! ### Literal trie (section 4.2, "Literal-trie strategy") -/

/-- Modelled from the spec: a node of the trie built over `pats` is named by
the string spelled on the way from the root, a prefix of some pattern. -/
def is_node (pats : List (List Char)) (s : List Char) : Bool :=
  pats.any fun p => s.isPrefixOf p

/-- The longest suffix of a string that is a node of the trie, the root `[]`
when there is no other. -/
def fall_back (pats : List (List Char)) : List Char → List Char
  | [] => []
  | c :: s => if is_node pats (c :: s) then c :: s else fall_back pats s

/-- Modelled from the spec: the failure link of a node, its longest proper
suffix that is a node. -/
def ac_failure (pats : List (List Char)) (s : List Char) : List Char :=
  fall_back pats s.tail

/-- Modelled from the spec: the transition of the trie from node `s` on byte
`c`.  The child of `s` along `c` is taken when there is one; otherwise the
failure link of `s` is followed and the search goes on from there, down to the
root.  `fuel` bounds the number of nodes visited; a node of depth `d` needs
`d + 1`. -/
def ac_goto (pats : List (List Char)) : Nat → List Char → Char → List Char
  | 0, _, _ => []
  | fuel + 1, s, c =>
    if is_node pats (s ++ [c]) then s ++ [c]
    else if s = [] then []
    else ac_goto pats fuel (ac_failure pats s) c

/-- The indices, counted from `i`, of the entries of `ps` equal to `t`. -/
def ids_from (t : List Char) : Nat → List (List Char) → List Nat
  | _, [] => []
  | i, p :: ps => if p = t then i :: ids_from t (i + 1) ps else ids_from t (i + 1) ps

/-- Modelled from the spec: the patterns that end at node `s`, found by
walking the failure links from `s` itself down to the root, which ends no
pattern.  `fuel` bounds the number of nodes visited. -/
def ac_output (pats : List (List Char)) : Nat → List Char → List Nat
  | 0, _ => []
  | fuel + 1, s =>
    if s = [] then []
    else ids_from s 0 pats ++ ac_output pats fuel (ac_failure pats s)

/-- Modelled from the spec: one linear pass of the trie over the text, from
node `s` at offset `pos`; every pattern that ends after a byte is reported
with the offset after that byte. -/
def ac_run (pats : List (List Char)) : List Char → Nat → List Char → List (Nat × Nat)
  | _, _, [] => []
  | s, pos, c :: rest =>
    (ac_output pats ((ac_goto pats (s.length + 1) s c).length + 1)
        (ac_goto pats (s.length + 1) s c)).map (fun i => (i, pos + 1)) ++
      ac_run pats (ac_goto pats (s.length + 1) s c) (pos + 1) rest

/-- Modelled from the spec: `acism_create`, which never fails. -/
def spec_acism_create (strv : List ac_trie_pat_t) (nstrs : Nat) : ac_trie_t :=
  { strv := strv, nstrs := nstrs }

/-- The literal byte strings of a trie: the first `nstrs` entries of the
vector, each cut to its recorded length. -/
def trie_patterns (t : ac_trie_t) : List (List Char) :=
  (t.strv.take t.nstrs).map fun pat => pat.ptr.take pat.len

/-- Modelled from the spec: `acism_lookup`.  The patterns are literal byte
strings; case-insensitivity is a comparison mode of the scan and leaves the
stored pattern bytes alone.  The scan reads the first `len` bytes of the
text.  The library hands each match to its callback as `int strnum` and
`int textpos` (the parameters of `rspamd_multipattern_acism_cb`): the pattern
number and the end offset arrive converted to `gint`. -/
def spec_acism_lookup (psp : Option ac_trie_t) (text : List Char) (len : Nat) (_state : Int)
    (caseless : Nat) : List (Int × Int) :=
  match psp with
  | none => []
  | some t =>
    (ac_run ((trie_patterns t).map (List.map (fold_case (decide (caseless ≠ 0))))) [] 0
        ((text.take len).map (fold_case (decide (caseless ≠ 0))))).map
      fun m => (gint (m.1 : Int), gint (m.2 : Int))

/-! ### Regular-expression automaton (section 4.2, "Regex-automaton strategy") -/

/-- Modelled from the spec: the characters with a meaning in the pattern
language of the regular-expression engine.  The spec leaves that language to
the backend; a pattern without any of these characters is a literal. -/
def is_meta (c : Char) : Bool :=
  "\\^$.|?*+()[]\x7b\x7d".toList.contains c

/-- A pattern without metacharacters. -/
def literal_only (p : List Char) : Bool :=
  p.all fun c => !is_meta c

/-- One expression of a database: its text, whether its flag word has
`HS_FLAG_CASELESS`, and its id. -/
structure hs_row where
  expr : List Char
  caseless : Bool
  id : Nat
deriving DecidableEq, Repr

/-- The rows of a database, in table order.  Of the flag word only
`HS_FLAG_CASELESS` is read: the model compares character by character, and
`HS_FLAG_UTF8`, which tells the library how bytes form characters, has no
counterpart in it. -/
def hs_rows (db : hs_database_t) : List hs_row :=
  List.zipWith (fun (e : List Char) (fi : Nat × Nat) =>
      { expr := e, caseless := decide (fi.1 &&& HS_FLAG_CASELESS ≠ 0), id := fi.2 })
    db.expressions (List.zip db.flags db.ids)

/-- Modelled from the spec: one step of the position automaton of a literal
expression `r`.  Position `j` is active when the first `j` characters of `r`
have just been read; position `0` is always active, the search being
unanchored. -/
def nfa_step (caseless : Bool) (r : List Char) (active : List Nat) (c : Char) : List Nat :=
  (0 :: active).filterMap fun j =>
    if (r[j]?).map (fold_case caseless) = some (fold_case caseless c) then some (j + 1)
    else none

/-- Modelled from the spec: the combined automaton reads one byte in all
expressions at once. -/
def hs_step (st : List (hs_row × List Nat)) (c : Char) : List (hs_row × List Nat) :=
  st.map fun ra => (ra.1, nfa_step ra.1.caseless ra.1.expr ra.2 c)

/-- Modelled from the spec: the expressions whose last position is active
are reported, in table order, with the current offset. -/
def hs_reports (st : List (hs_row × List Nat)) (pos : Nat) : List hs_match :=
  (st.filter fun ra => ra.1.expr.length ∈ ra.2).map fun ra =>
    { id := ra.1.id, from_ := 0, to_ := pos, flags := 0 }

/-- Modelled from the spec: one left-to-right pass of the combined automaton
over the data. -/
def hs_run : List (hs_row × List Nat) → Nat → List Char → List hs_match
  | _, _, [] => []
  | st, pos, c :: rest =>
    hs_reports (hs_step st c) (pos + 1) ++ hs_run (hs_step st c) (pos + 1) rest

/-- Modelled from the spec: `hs_compile_multi`, for the literal fragment of
the pattern language.  A table without expressions (`elements = 0`) is
refused, as the library documents, with an error that names no expression:
its index is negative.  An expression with a metacharacter is outside the
model and is rejected with its index and a reason (section 7, "unsupported
construct"); otherwise the database is the table of the first `elements`
expressions. -/
def spec_hs_compile_multi (expressions : List CStr) (flags : List Nat) (ids : List Nat)
    (elements : Nat) (mode : Nat) : Except hs_compile_error_t hs_database_t :=
  if elements = 0 then
    Except.error { message := "Invalid parameter: elements is zero".toList, expression := -1 }
  else
    match (expressions.take elements).findIdx? fun e => !literal_only e with
    | some i =>
      Except.error { message := "unsupported construct".toList, expression := (i : Int) }
    | none =>
      Except.ok { expressions := expressions.take elements, flags := flags.take elements,
                  ids := ids.take elements, elements := elements, mode := mode }

/-- Modelled from the spec: `hs_alloc_scratch`, which succeeds. -/
def spec_hs_alloc_scratch (db : hs_database_t) : Except Int hs_scratch_t :=
  Except.ok { db := db }

/-- Value of `HS_INVALID` in `hs_common.h`. -/
def HS_INVALID : Int := -1

/-- Modelled from the spec: `hs_scan` on the first `length` bytes of the
data.  The library takes the length as `unsigned int`: of the `gsize` that
`rspamd_multipattern_lookup` passes, the value modulo `2 ^ 32` arrives.  By
section 7 a scan of a compiled set cannot fail; a call without a database or
without scratch space is refused. -/
def spec_hs_scan (db : Option hs_database_t) (data : List Char) (length : Nat) (_flags : Nat)
    (scratch : Option hs_scratch_t) : Except Int (List hs_match) :=
  match db, scratch with
  | some d, some _ =>
    Except.ok (hs_run ((hs_rows d).map fun r => (r, [])) 0
      (data.take (length % 4294967296)))
  | _, _ => Except.error HS_INVALID

/-- The two engines as the spec describes them. -/
def spec_engines : Engines :=
  { hs_populate_platform := HS_SUCCESS
    hs_compile_multi := spec_hs_compile_multi
    hs_alloc_scratch := spec_hs_alloc_scratch
    hs_scan := spec_hs_scan
    acism_create := spec_acism_create
    acism_lookup := spec_acism_lookup }

/-- A Hyperscan build in which `hs_scan` refuses the call with `HS_INVALID`,
as the library does for a call it finds invalid. -/
def refusing_engines : Engines :=
  { spec_engines with hs_scan := fun _ _ _ _ _ => Except.error HS_INVALID }

/-- A Hyperscan build in which `hs_compile_multi` refuses an empty table
(`elements = 0`), as the library does.  No expression is at fault for that
rejection, and the index of the error is negative, as the library documents
for an error that is not specific to an expression. -/
def strict_engines : Engines :=
  { spec_engines with
    hs_compile_multi := fun expressions flags ids elements mode =>
      if elements = 0 then
        Except.error { message := "Invalid parameter: elements is zero".toList,
                       expression := -1 }
      else spec_hs_compile_multi expressions flags ids elements mode }

/-- Adds the patterns of a list in order with
`rspamd_multipattern_add_pattern`. -/
def add_patterns (b : Backend) : rspamd_multipattern → List CStr → Option rspamd_multipattern
  | mp, [] => some mp
  | mp, p :: ps =>
    match rspamd_multipattern_add_pattern b mp (some p) with
    | none => none
    | some mp1 => add_patterns b mp1 ps

/-- Builds a set from `rspamd_multipattern_create`, adds the patterns and
compiles it; `none` when a step aborts or the compile fails. -/
def build (E : Engines) (b : Backend) (flags : Nat) (pats : List CStr) :
    Option rspamd_multipattern :=
  match add_patterns b (rspamd_multipattern_create flags) pats with
  | none => none
  | some mp =>
    match rspamd_multipattern_compile E b mp true with
    | some r => if r.ret then some r.mp else none
    | none => none

/-- A callback that records nothing of its own and always asks to go on. -/
def cb_continue : rspamd_multipattern_cb_t Unit :=
  fun _ _ _ _ _ _ w => (0, w)

/-- A callback that stops the scan at its first invocation, returning the
pattern id plus one. -/
def cb_stop_id : rspamd_multipattern_cb_t Unit :=
  fun _ strnum _ _ _ _ w => (strnum + 1, w)

/-- The pairs `(pattern id, end offset)` handed to the callback during a scan
of `text`, in order, with the returned value and the reported count. -/
def scan_pairs (E : Engines) (b : Backend) (mp : rspamd_multipattern) (text : List Char)
    (cb : rspamd_multipattern_cb_t Unit) : Option (List (Int × Int) × Int × Option Nat) :=
  match rspamd_multipattern_lookup E b mp text text.length (traced cb) 0 true ((), []) with
  | none => none
  | some res => some (res.world.2.map (fun c => (c.strnum, c.textpos)), res.ret, res.pnfound)

/-- The set of the two literals `bc` and `abc`, compiled for the trie
build. -/
def example_trie_set : rspamd_multipattern :=
  { db := none, scratch := none, hs_pats := [], hs_ids := [], hs_flags := [],
    t := some { strv := [{ ptr := "bc".toList, len := 2 }, { ptr := "abc".toList, len := 3 }],
                nstrs := 2 },
    pats := [{ ptr := "bc".toList, len := 2 }, { ptr := "abc".toList, len := 3 }],
    compiled := true, cnt := 2, flags := 0 }

/-- The set of the two literals `bc` and `abc`, compiled for the Hyperscan
build. -/
def example_hs_set : rspamd_multipattern :=
  { db := some { expressions := ["bc".toList, "abc".toList], flags := [0, 0], ids := [0, 1],
                 elements := 2, mode := 1 },
    scratch := some { db := { expressions := ["bc".toList, "abc".toList], flags := [0, 0],
                              ids := [0, 1], elements := 2, mode := 1 } },
    hs_pats := ["bc".toList, "abc".toList], hs_ids := [0, 1], hs_flags := [0, 0],
    t := none, pats := [], compiled := true, cnt := 2, flags := 0 }

/-- The flag word that `rspamd_multipattern_add_pattern` appends to `hs_flags`
for a set with the given flags: the value of `fl` after the two tests. -/
def hs_flag_word (flags : Nat) : Nat :=
  let fl : Nat := 0
  let fl := if flags &&& RSPAMD_MULTIPATTERN_ICASE ≠ 0 then fl ||| HS_FLAG_CASELESS else fl
  let fl := if flags &&& RSPAMD_MULTIPATTERN_UTF8 ≠ 0 then fl ||| HS_FLAG_UTF8 else fl
  fl

/-- The public constructors of a set. -/
inductive Ctor where
  | create (flags : Nat)
  | create_sized (npatterns : Nat) (flags : Nat)
  | create_full (patterns : Option (List (Option CStr))) (npatterns : Nat) (flags : Nat)

/-- The public operations that change a set. -/
inductive Op where
  | add_pattern (pattern : Option CStr)
  | compile (err : Bool)

/-- Runs a constructor. -/
def run_ctor (b : Backend) : Ctor → Option rspamd_multipattern
  | Ctor.create flags => some (rspamd_multipattern_create flags)
  | Ctor.create_sized n flags => rspamd_multipattern_create_sized n flags
  | Ctor.create_full patterns n flags => rspamd_multipattern_create_full b patterns n flags

/-- Runs one operation on a set; `none` when the operation aborts.  A compile
that fails with an error leaves the set as it was. -/
def run_op (E : Engines) (b : Backend) (mp : rspamd_multipattern) : Op →
    Option rspamd_multipattern
  | Op.add_pattern pattern => rspamd_multipattern_add_pattern b mp pattern
  | Op.compile err =>
    match rspamd_multipattern_compile E b mp err with
    | none => none
    | some r => some r.mp

/-- Runs a sequence of operations on a set, in order. -/
def run_ops (E : Engines) (b : Backend) : rspamd_multipattern → List Op →
    Option rspamd_multipattern
  | mp, [] => some mp
  | mp, op :: ops =>
    match run_op E b mp op with
    | none => none
    | some mp1 => run_ops E b mp1 ops

/-- Runs a constructor and then a sequence of operations. -/
def run (E : Engines) (b : Backend) (c : Ctor) (ops : List Op) : Option rspamd_multipattern :=
  match run_ctor b c with
  | none => none
  | some mp => run_ops E b mp ops

/-- The number of patterns a constructor is asked to add. -/
def ctor_patterns : Ctor → Nat
  | Ctor.create _ => 0
  | Ctor.create_sized _ _ => 0
  | Ctor.create_full _ n _ => n

/-- The number of `add_pattern` operations in a sequence. -/
def count_adds : List Op → Nat
  | [] => 0
  | Op.add_pattern _ :: ops => count_adds ops + 1
  | Op.compile _ :: ops => count_adds ops

/-- The trie set of `ab`, `abc` and `x` after it was compiled. -/
def example_run_set : rspamd_multipattern :=
  { db := none, scratch := none, hs_pats := [], hs_ids := [], hs_flags := [],
    t := some { strv := [{ ptr := "ab".toList, len := 2 }, { ptr := "abc".toList, len := 3 },
                         { ptr := "x".toList, len := 1 }],
                nstrs := 3 },
    pats := [{ ptr := "ab".toList, len := 2 }, { ptr := "abc".toList, len := 3 },
             { ptr := "x".toList, len := 1 }],
    compiled := true, cnt := 3, flags := 0 }

/-- An uncompiled Hyperscan set of `ab` and `a.c`, with flags `0`. -/
def example_regex_set : rspamd_multipattern :=
  { db := none, scratch := none, hs_pats := ["ab".toList, "a.c".toList], hs_ids := [0, 1],
    hs_flags := [0, 0], t := none, pats := [], compiled := false, cnt := 2, flags := 0 }

/-- The active positions of a literal expression after the text `u` was read
from the start. -/
def nfa_active (caseless : Bool) (r : List Char) (u : List Char) : List Nat :=
  u.foldl (nfa_step caseless r) []

/-- The state of the combined automaton after the text `u` was read from the
start. -/
def hs_state (rows : List hs_row) (u : List Char) : List (hs_row × List Nat) :=
  rows.map fun r => (r, nfa_active r.caseless r.expr u)

/-- The pair `(pattern id, end offset)` of a Hyperscan match event, as the
bridge hands it on. -/
def hs_pair (m : hs_match) : Int × Int :=
  ((m.id : Int), (m.to_ : Int))

/-- The database that the modelled engine compiles from the tables of a set
with the given flags and literal patterns. -/
def spec_database (flags : Nat) (pats : List CStr) : hs_database_t :=
  { expressions := pats, flags := List.replicate pats.length (hs_flag_word flags),
    ids := List.range' 0 pats.length, elements := pats.length, mode := HS_MODE_BLOCK }

/-- The pair `(pattern id, end offset)` that an invocation of the callback
received. -/
def CbCall.pair (c : CbCall) : Int × Int :=
  (c.strnum, c.textpos)

/-- Whether the flags of a set put its scans in the case-insensitive
comparison mode. -/
def flags_caseless (flags : Nat) : Bool :=
  decide (flags &&& RSPAMD_MULTIPATTERN_ICASE ≠ 0)

/-- The public operations on a set after its construction, scans included.
A scan carries its buffer, its callback with the user data and the user state
before the scan, and whether `pnfound` is non-NULL. -/
inductive SetOp : Type 1 where
  | add_pattern (pattern : Option CStr)
  | compile (err : Bool)
  | lookup (W : Type) (in_ : List Char) (len : Nat) (cb : rspamd_multipattern_cb_t W)
      (ud : Nat) (pnfound : Bool) (w : W)

/-- Whether an operation is a scan. -/
def SetOp.is_lookup : SetOp → Bool
  | SetOp.lookup _ _ _ _ _ _ _ => true
  | _ => false

/-- Runs one operation on a set and gives the set afterwards; `none` when the
operation aborts.  A compile that fails with an error leaves the set as it
was. -/
def apply_op (E : Engines) (b : Backend) (mp : rspamd_multipattern) :
    SetOp → Option rspamd_multipattern
  | SetOp.add_pattern pattern => rspamd_multipattern_add_pattern b mp pattern
  | SetOp.compile err =>
    match rspamd_multipattern_compile E b mp err with
    | none => none
    | some r => some r.mp
  | SetOp.lookup _ in_ len cb ud pnfound w =>
    match rspamd_multipattern_lookup E b mp in_ len cb ud pnfound w with
    | none => none
    | some res => some res.mp

/-- Runs a sequence of operations on a set, in order. -/
def apply_ops (E : Engines) (b : Backend) :
    rspamd_multipattern → List SetOp → Option rspamd_multipattern
  | mp, [] => some mp
  | mp, op :: ops =>
    match apply_op E b mp op with
    | none => none
    | some mp1 => apply_ops E b mp1 ops

/-- The trie set of `bc` and `abc` before it is compiled. -/
def example_trie_set_open : rspamd_multipattern :=
  { db := none, scratch := none, hs_pats := [], hs_ids := [], hs_flags := [], t := none,
    pats := [{ ptr := "bc".toList, len := 2 }, { ptr := "abc".toList, len := 3 }],
    compiled := false, cnt := 2, flags := 0 }

/-- An uncompiled Hyperscan set of `ab` and `cd` whose flags hold both
`RSPAMD_MULTIPATTERN_ICASE` and `RSPAMD_MULTIPATTERN_UTF8`. -/
def example_flagged_set : rspamd_multipattern :=
  { db := none, scratch := none, hs_pats := ["ab".toList, "cd".toList], hs_ids := [0, 1],
    hs_flags := [33, 33], t := none, pats := [], compiled := false, cnt := 2, flags := 3 }

/-! ## Theorems -/

theorem deliver_map {ε ε' σ : Type} (f : ε → ε') (h : ε' → σ → Int × σ) (evs : List ε)
    (c : σ) : deliver (fun e ctx => h (f e) ctx) evs c = deliver h (evs.map f) c := by
  induction evs generalizing c with
  | nil => rfl
  | cons e es ih =>
    simp only [deliver, List.map_cons]
    split
    · rfl
    · exact ih _

theorem answers_length {W : Type} (cb : rspamd_multipattern_cb_t W) (mp : rspamd_multipattern)
    (in_ : List Char) (len ud : Nat) (evs : List (Int × Int)) (w : W) :
    (answers cb mp in_ len ud evs w).length = evs.length := by
  induction evs generalizing w with
  | nil => rfl
  | cons e es ih => simp [answers, ih]

theorem stop_count_le (a : List Int) : stop_count a ≤ a.length := by
  induction a with
  | nil => simp [stop_count]
  | cons r rs ih =>
    simp only [stop_count, List.length_cons]
    split <;> omega

/-- The bridge run with an instrumented callback, in closed form. -/
theorem deliver_bridge {W : Type} (cb : rspamd_multipattern_cb_t W) (mp : rspamd_multipattern)
    (in_ : List Char) (len ud : Nat) (evs : List (Int × Int)) (nf : Nat) (rt : Int) (w : W)
    (log : List CbCall) (hnf : nf < 4294967296) :
    deliver bridge evs
        (({ mp := mp, in_ := in_, len := len, cb := traced cb, ud := ud, nfound := nf,
            ret := rt } : rspamd_multipattern_cbdata (W × List CbCall)), (w, log)) =
      (stop_value (answers cb mp in_ len ud evs w),
        ({ mp := mp, in_ := in_, len := len, cb := traced cb, ud := ud,
           nfound := (nf + stop_count (answers cb mp in_ len ud evs w)) % 4294967296,
           ret := last_answer rt (answers cb mp in_ len ud evs w) },
         (world_after cb mp in_ len ud
            (evs.take (stop_count (answers cb mp in_ len ud evs w))) w,
          log ++ List.zipWith (fun e r => call_of mp in_ len ud r e)
            (evs.take (stop_count (answers cb mp in_ len ud evs w)))
            ((answers cb mp in_ len ud evs w).take
              (stop_count (answers cb mp in_ len ud evs w)))))) := by
  induction evs generalizing nf rt w log with
  | nil =>
    simp [deliver, answers, stop_value, stop_count, last_answer, world_after,
      Nat.mod_eq_of_lt hnf]
  | cons e es ih =>
    by_cases hr : (cb mp e.1 e.2 in_ len ud w).1 = 0
    · have hlt : guint (nf + 1) < 4294967296 := Nat.mod_lt _ (by norm_num)
      have := ih (guint (nf + 1)) (cb mp e.1 e.2 in_ len ud w).1
        (cb mp e.1 e.2 in_ len ud w).2
        (log ++ [call_of mp in_ len ud (cb mp e.1 e.2 in_ len ud w).1 e]) hlt
      simp only [deliver, bridge, rspamd_multipattern_acism_cb, traced, answers, stop_value,
        stop_count, last_answer, hr, ne_eq, not_true_eq_false, if_false, call_of] at this ⊢
      rw [this]
      simp [world_after, guint, call_of, hr, Nat.add_assoc, Nat.add_comm 1]
    · simp [deliver, bridge, rspamd_multipattern_acism_cb, traced, answers, stop_value,
        stop_count, last_answer, hr, world_after, call_of, guint]

/-- The bridge run with any callback, in closed form. -/
theorem deliver_bridge_plain {W : Type} (cb : rspamd_multipattern_cb_t W)
    (mp : rspamd_multipattern) (in_ : List Char) (len ud : Nat) (evs : List (Int × Int))
    (nf : Nat) (rt : Int) (w : W) (hnf : nf < 4294967296) :
    deliver bridge evs
        (({ mp := mp, in_ := in_, len := len, cb := cb, ud := ud, nfound := nf,
            ret := rt } : rspamd_multipattern_cbdata W), w) =
      (stop_value (answers cb mp in_ len ud evs w),
        ({ mp := mp, in_ := in_, len := len, cb := cb, ud := ud,
           nfound := (nf + stop_count (answers cb mp in_ len ud evs w)) % 4294967296,
           ret := last_answer rt (answers cb mp in_ len ud evs w) },
         world_after cb mp in_ len ud
            (evs.take (stop_count (answers cb mp in_ len ud evs w))) w)) := by
  induction evs generalizing nf rt w with
  | nil =>
    simp [deliver, answers, stop_value, stop_count, last_answer, world_after,
      Nat.mod_eq_of_lt hnf]
  | cons e es ih =>
    by_cases hr : (cb mp e.1 e.2 in_ len ud w).1 = 0
    · have hlt : guint (nf + 1) < 4294967296 := Nat.mod_lt _ (by norm_num)
      have := ih (guint (nf + 1)) (cb mp e.1 e.2 in_ len ud w).1
        (cb mp e.1 e.2 in_ len ud w).2 hlt
      simp only [deliver, bridge, rspamd_multipattern_acism_cb, answers, stop_value,
        stop_count, last_answer, hr, ne_eq, not_true_eq_false, if_false] at this ⊢
      rw [this]
      simp [world_after, guint, hr, Nat.add_assoc, Nat.add_comm 1]
    · simp [deliver, bridge, rspamd_multipattern_acism_cb, answers, stop_value,
        stop_count, last_answer, hr, world_after, guint]

/-- When the bridge run stops on a nonzero value, `cbd.ret` holds that value. -/
theorem deliver_bridge_ret {W : Type} (evs : List (Int × Int))
    (c : rspamd_multipattern_cbdata W × W) (h : (deliver bridge evs c).1 ≠ 0) :
    (deliver bridge evs c).2.1.ret = (deliver bridge evs c).1 := by
  induction evs generalizing c with
  | nil => simp [deliver] at h
  | cons e es ih =>
    simp only [deliver] at h ⊢
    split
    · rfl
    · rename_i h0
      simp only [h0, if_false] at h
      exact ih _ h

/-- A scan that the backend does not refuse is the bridge run over its match
events, in either build. -/
theorem lookup_eq_deliver {W : Type} (E : Engines) (b : Backend) (mp : rspamd_multipattern)
    (in_ : List Char) (len : Nat) (cb : rspamd_multipattern_cb_t W) (ud : Nat) (pnfound : Bool)
    (w : W) (evs : List (Int × Int)) (hc : mp.compiled = true)
    (hev : match_events E b mp in_ len = Except.ok evs) :
    rspamd_multipattern_lookup E b mp in_ len cb ud pnfound w =
      some
        { ret := (deliver bridge evs
            ({ mp := mp, in_ := in_, len := len, cb := cb, ud := ud, nfound := 0, ret := 0 },
              w)).1
          pnfound :=
            if pnfound then
              some (deliver bridge evs
                ({ mp := mp, in_ := in_, len := len, cb := cb, ud := ud, nfound := 0,
                   ret := 0 }, w)).2.1.nfound
            else none
          world := (deliver bridge evs
            ({ mp := mp, in_ := in_, len := len, cb := cb, ud := ud, nfound := 0, ret := 0 },
              w)).2.2
          mp := mp } := by
  cases b with
  | acism =>
    simp only [match_events, Except.ok.injEq] at hev
    subst hev
    simp only [rspamd_multipattern_lookup, hc, if_true, acism_lookup]
    rfl
  | hyperscan =>
    simp only [match_events] at hev
    split at hev
    · exact absurd hev (by simp)
    · rename_i hevs heq
      simp only [Except.ok.injEq] at hev
      subst hev
      have hmap := deliver_map (fun m : hs_match => ((m.id : Int), (m.to_ : Int)))
        (bridge : Int × Int → rspamd_multipattern_cbdata W × W → _) hevs
        ({ mp := mp, in_ := in_, len := len, cb := cb, ud := ud, nfound := 0, ret := 0 }, w)
      have hret := deliver_bridge_ret (List.map (fun m : hs_match => ((m.id : Int), (m.to_ : Int))) hevs)
        (({ mp := mp, in_ := in_, len := len, cb := cb, ud := ud, nfound := 0, ret := 0 } :
          rspamd_multipattern_cbdata W), w)
      rw [← hmap] at hret ⊢
      simp only [rspamd_multipattern_lookup, hc, if_true, hs_scan, heq]
      simp only [bridge, rspamd_multipattern_acism_cb, rspamd_multipattern_hs_cb] at hret ⊢
      by_cases h0 : (deliver (fun (e : hs_match) (ctx : rspamd_multipattern_cbdata W × W) =>
            ((ctx.1.cb ctx.1.mp (e.id : Int) (e.to_ : Int) ctx.1.in_ ctx.1.len ctx.1.ud ctx.2).1,
              ({ ctx.1 with nfound := guint (ctx.1.nfound + 1),
                            ret := (ctx.1.cb ctx.1.mp (e.id : Int) (e.to_ : Int) ctx.1.in_
                              ctx.1.len ctx.1.ud ctx.2).1 },
               (ctx.1.cb ctx.1.mp (e.id : Int) (e.to_ : Int) ctx.1.in_ ctx.1.len ctx.1.ud
                 ctx.2).2))) hevs
          ({ mp := mp, in_ := in_, len := len, cb := cb, ud := ud, nfound := 0, ret := 0 },
            w)).1 = 0
      · simp [h0, HS_SUCCESS]
      · have := hret h0
        simp [h0, HS_SUCCESS, HS_SCAN_TERMINATED, this]

theorem example_trie_set_built :
    build spec_engines Backend.acism 0 ["bc".toList, "abc".toList] = some example_trie_set := by
  decide

theorem example_hs_set_built :
    build spec_engines Backend.hyperscan 0 ["bc".toList, "abc".toList] = some example_hs_set := by
  decide

theorem example_hs_set_built_refusing :
    build refusing_engines Backend.hyperscan 0 ["bc".toList, "abc".toList] =
      some example_hs_set := by
  decide

theorem stop_of_prefix (a : List Int) (k : Nat) (R : Int)
    (h : a.take k = List.replicate (k - 1) 0 ++ [R]) (hR : R ≠ 0) :
    stop_count a = k ∧ stop_value a = R ∧ ∀ d, last_answer d a = R := by
  induction a generalizing k with
  | nil => simp at h
  | cons r rs ih =>
    cases k with
    | zero => simp at h
    | succ j =>
      cases j with
      | zero =>
        simp at h
        subst h
        simp [stop_count, stop_value, last_answer, hR]
      | succ i =>
        simp only [List.take_succ_cons, Nat.add_sub_cancel, List.replicate_succ,
          List.cons_append, List.cons.injEq] at h
        obtain ⟨h1, h2⟩ := h
        subst h1
        have := ih (i + 1) (by simpa using h2)
        simp [stop_count, stop_value, last_answer, this]

theorem stop_of_zero (a : List Int) (h : ∀ r ∈ a, r = 0) :
    stop_count a = a.length ∧ stop_value a = 0 := by
  induction a with
  | nil => simp [stop_count, stop_value]
  | cons r rs ih =>
    have hr : r = 0 := h r (by simp)
    have := ih (fun x hx => h x (by simp [hx]))
    simp [stop_count, stop_value, hr, this]

theorem args_zipWith (mp : rspamd_multipattern) (in_ : List Char) (len ud : Nat)
    (es : List (Int × Int)) (rs : List Int) (h : es.length = rs.length) :
    (List.zipWith (fun e r => call_of mp in_ len ud r e) es rs).map CbCall.args =
      es.map (args_of mp in_ len ud) := by
  induction es generalizing rs with
  | nil => simp
  | cons e es ih =>
    cases rs with
    | nil => simp at h
    | cons r rs =>
      simp only [List.zipWith_cons_cons, List.map_cons, List.cons.injEq]
      exact ⟨rfl, ih rs (by simpa using h)⟩

theorem result_zipWith (mp : rspamd_multipattern) (in_ : List Char) (len ud : Nat)
    (es : List (Int × Int)) (rs : List Int) (h : es.length = rs.length) :
    (List.zipWith (fun e r => call_of mp in_ len ud r e) es rs).map CbCall.result = rs := by
  induction es generalizing rs with
  | nil =>
    cases rs with
    | nil => simp
    | cons r rs => simp at h
  | cons e es ih =>
    cases rs with
    | nil => simp at h
    | cons r rs =>
      simp only [List.zipWith_cons_cons, List.map_cons, List.cons.injEq]
      exact ⟨rfl, ih rs (by simpa using h)⟩

/-- The answers of the invocations a scan makes: zero except possibly the
last, which is the stop value when that is nonzero. -/
theorem stop_answers (a : List Int) :
    (stop_value a = 0 ↔ ∀ r ∈ a.take (stop_count a), r = 0) ∧
      (stop_value a ≠ 0 → (a.take (stop_count a)).getLast? = some (stop_value a)) := by
  induction a with
  | nil => simp [stop_count, stop_value]
  | cons r rs ih =>
    by_cases hr : r = 0
    · subst hr
      simp only [stop_count, stop_value, ne_eq, not_true_eq_false, if_false,
        List.take_succ_cons, List.mem_cons, forall_eq_or_imp, true_and]
      refine ⟨ih.1, fun h => ?_⟩
      have h2 := ih.2 h
      cases ht : List.take (stop_count rs) rs with
      | nil => simp [ht] at h2
      | cons x xs => simpa [ht, List.getLast?_cons_cons] using h2
    · simp [stop_count, stop_value, hr]

/-- The instrumented scan, in closed form over the answers of the
callback. -/
theorem lookup_traced {W : Type} (E : Engines) (b : Backend) (mp : rspamd_multipattern)
    (in_ : List Char) (len : Nat) (cb : rspamd_multipattern_cb_t W) (ud : Nat) (pnfound : Bool)
    (w : W) (evs : List (Int × Int)) (hc : mp.compiled = true)
    (hev : match_events E b mp in_ len = Except.ok evs) :
    ∃ res, rspamd_multipattern_lookup E b mp in_ len (traced cb) ud pnfound (w, []) = some res ∧
      res.ret = stop_value (answers cb mp in_ len ud evs w) ∧
      res.pnfound =
        (if pnfound then some (stop_count (answers cb mp in_ len ud evs w) % 4294967296)
         else none) ∧
      res.world.2 = List.zipWith (fun e r => call_of mp in_ len ud r e)
        (evs.take (stop_count (answers cb mp in_ len ud evs w)))
        ((answers cb mp in_ len ud evs w).take (stop_count (answers cb mp in_ len ud evs w))) ∧
      res.world.1 = world_after cb mp in_ len ud
        (evs.take (stop_count (answers cb mp in_ len ud evs w))) w ∧
      res.mp = mp := by
  rw [lookup_eq_deliver E b mp in_ len (traced cb) ud pnfound (w, []) evs hc hev,
    deliver_bridge cb mp in_ len ud evs 0 0 w [] (by norm_num)]
  exact ⟨_, rfl, by simp⟩

/-- The scan with the callback as it is, in closed form over its answers. -/
theorem lookup_plain {W : Type} (E : Engines) (b : Backend) (mp : rspamd_multipattern)
    (in_ : List Char) (len : Nat) (cb : rspamd_multipattern_cb_t W) (ud : Nat) (pnfound : Bool)
    (w : W) (evs : List (Int × Int)) (hc : mp.compiled = true)
    (hev : match_events E b mp in_ len = Except.ok evs) :
    ∃ res, rspamd_multipattern_lookup E b mp in_ len cb ud pnfound w = some res ∧
      res.ret = stop_value (answers cb mp in_ len ud evs w) ∧
      res.pnfound =
        (if pnfound then some (stop_count (answers cb mp in_ len ud evs w) % 4294967296)
         else none) ∧
      res.world = world_after cb mp in_ len ud
        (evs.take (stop_count (answers cb mp in_ len ud evs w))) w ∧
      res.mp = mp := by
  rw [lookup_eq_deliver E b mp in_ len cb ud pnfound w evs hc hev,
    deliver_bridge_plain cb mp in_ len ud evs 0 0 w (by norm_num)]
  exact ⟨_, rfl, by simp⟩

theorem take_stop_lengths {W : Type} (cb : rspamd_multipattern_cb_t W)
    (mp : rspamd_multipattern) (in_ : List Char) (len ud : Nat) (evs : List (Int × Int))
    (w : W) (n : Nat) :
    (evs.take n).length = ((answers cb mp in_ len ud evs w).take n).length := by
  simp [answers_length]

/-- C1 (early stop).  For a compiled set whose backend raises the match events
`evs` on the buffer: if the callback answers `0` to the first `k - 1` events
and a nonzero `R` to the `k`-th (`k` in the range of `guint`), then
`rspamd_multipattern_lookup` returns `R`, stores `k` through `pnfound`, and
the callback was invoked for the first `k` events only, in order.  The same
return value and count are obtained with the callback uninstrumented. -/
theorem C1_early_stop {W : Type} (E : Engines) (b : Backend) (mp : rspamd_multipattern)
    (in_ : List Char) (len : Nat) (cb : rspamd_multipattern_cb_t W) (ud : Nat) (pnfound : Bool)
    (w : W) (evs : List (Int × Int)) (k : Nat) (R : Int)
    (hc : mp.compiled = true)
    (hev : match_events E b mp in_ len = Except.ok evs)
    (hk : k < 4294967296)
    (hans : (answers cb mp in_ len ud evs w).take k = List.replicate (k - 1) 0 ++ [R])
    (hR : R ≠ 0) :
    (∃ res, rspamd_multipattern_lookup E b mp in_ len (traced cb) ud pnfound (w, []) = some res ∧
      res.ret = R ∧ res.pnfound = (if pnfound then some k else none) ∧
      res.world.2.map CbCall.args = (evs.take k).map (args_of mp in_ len ud) ∧
      res.world.2.length = k) ∧
    (∃ res, rspamd_multipattern_lookup E b mp in_ len cb ud pnfound w = some res ∧
      res.ret = R ∧ res.pnfound = (if pnfound then some k else none)) := by
  obtain ⟨hcount, hvalue, -⟩ := stop_of_prefix _ k R hans hR
  have hkl : k ≤ evs.length := by
    have := stop_count_le (answers cb mp in_ len ud evs w)
    rw [hcount, answers_length] at this
    exact this
  constructor
  · obtain ⟨res, hres, h1, h2, h3, -, -⟩ := lookup_traced E b mp in_ len cb ud pnfound w evs hc hev
    refine ⟨res, hres, ?_, ?_, ?_, ?_⟩
    · rw [h1, hvalue]
    · rw [h2, hcount, Nat.mod_eq_of_lt hk]
    · rw [h3, hcount, args_zipWith _ _ _ _ _ _ (take_stop_lengths cb mp in_ len ud evs w k)]
    · rw [h3, hcount]
      simp [answers_length, hkl]
  · obtain ⟨res, hres, h1, h2, -, -⟩ := lookup_plain E b mp in_ len cb ud pnfound w evs hc hev
    exact ⟨res, hres, by rw [h1, hvalue], by rw [h2, hcount, Nat.mod_eq_of_lt hk]⟩

/-- Witness of C1: the trie set of `bc` and `abc` on the buffer `abc`, with a
callback that stops at the first match. -/
theorem C1_early_stop_witness :
    (∃ res, rspamd_multipattern_lookup spec_engines Backend.acism example_trie_set "abc".toList
        3 (traced cb_stop_id) 0 true ((), []) = some res ∧
      res.ret = 2 ∧ res.pnfound = (if true then some 1 else none) ∧
      res.world.2.map CbCall.args =
        ([((1 : Int), (3 : Int)), (0, 3)].take 1).map
          (args_of example_trie_set "abc".toList 3 0) ∧
      res.world.2.length = 1) ∧
    (∃ res, rspamd_multipattern_lookup spec_engines Backend.acism example_trie_set "abc".toList
        3 cb_stop_id 0 true () = some res ∧
      res.ret = 2 ∧ res.pnfound = (if true then some 1 else none)) :=
  C1_early_stop spec_engines Backend.acism example_trie_set "abc".toList 3 cb_stop_id 0 true ()
    [(1, 3), (0, 3)] 1 2 (by decide) rfl (by decide) (by decide) (by decide)

/-- C3, as the code has it.  For a compiled set and a scan that the backend
does not refuse (the trie backend refuses none; for Hyperscan, `hs_scan` on
the set and buffer raises events instead of failing), with match events `evs`
(fewer than `2 ^ 32`, the range of the `guint` counter): if the callback
answers `0` every time, it is invoked once per
event, in the order of the events, each time with the set, the id and end
offset of the event, and the buffer, length and user data of the scan; the
scan returns `0` and stores the number of events through `pnfound`. -/
theorem C3_complete_delivery {W : Type} (E : Engines) (b : Backend)
    (mp : rspamd_multipattern) (in_ : List Char) (len : Nat) (cb : rspamd_multipattern_cb_t W)
    (ud : Nat) (pnfound : Bool) (w : W) (evs : List (Int × Int))
    (hc : mp.compiled = true)
    (hev : match_events E b mp in_ len = Except.ok evs)
    (hlen : evs.length < 4294967296)
    (h0 : ∀ r ∈ answers cb mp in_ len ud evs w, r = 0) :
    (∃ res, rspamd_multipattern_lookup E b mp in_ len (traced cb) ud pnfound (w, []) = some res ∧
      res.ret = 0 ∧ res.pnfound = (if pnfound then some evs.length else none) ∧
      res.world.2.map CbCall.args = evs.map (args_of mp in_ len ud)) ∧
    (∃ res, rspamd_multipattern_lookup E b mp in_ len cb ud pnfound w = some res ∧
      res.ret = 0 ∧ res.pnfound = (if pnfound then some evs.length else none)) := by
  obtain ⟨hcount, hvalue⟩ := stop_of_zero _ h0
  rw [answers_length] at hcount
  constructor
  · obtain ⟨res, hres, h1, h2, h3, -, -⟩ := lookup_traced E b mp in_ len cb ud pnfound w evs hc hev
    refine ⟨res, hres, ?_, ?_, ?_⟩
    · rw [h1, hvalue]
    · rw [h2, hcount, Nat.mod_eq_of_lt hlen]
    · rw [h3, hcount,
        args_zipWith _ _ _ _ _ _ (take_stop_lengths cb mp in_ len ud evs w evs.length)]
      simp
  · obtain ⟨res, hres, h1, h2, -, -⟩ := lookup_plain E b mp in_ len cb ud pnfound w evs hc hev
    exact ⟨res, hres, by rw [h1, hvalue], by rw [h2, hcount, Nat.mod_eq_of_lt hlen]⟩

/-- Witness of C3: the Hyperscan set of `bc` and `abc` on the buffer `xabc`,
with a callback that never stops. -/
theorem C3_complete_delivery_witness :
    (∃ res, rspamd_multipattern_lookup spec_engines Backend.hyperscan example_hs_set
        "xabc".toList 4 (traced cb_continue) 7 true ((), []) = some res ∧
      res.ret = 0 ∧
      res.pnfound = (if true then some [((0 : Int), (4 : Int)), (1, 4)].length else none) ∧
      res.world.2.map CbCall.args =
        [((0 : Int), (4 : Int)), (1, 4)].map (args_of example_hs_set "xabc".toList 4 7)) ∧
    (∃ res, rspamd_multipattern_lookup spec_engines Backend.hyperscan example_hs_set
        "xabc".toList 4 cb_continue 7 true () = some res ∧
      res.ret = 0 ∧
      res.pnfound = (if true then some [((0 : Int), (4 : Int)), (1, 4)].length else none)) :=
  C3_complete_delivery spec_engines Backend.hyperscan example_hs_set "xabc".toList 4
    cb_continue 7 true () [(0, 4), (1, 4)] (by decide) rfl (by decide) (by decide)

/-- Counterexample to C3 as stated: in a Hyperscan build whose `hs_scan`
refuses the call, on the compiled set of `bc` and `abc` and the buffer `abc`
the callback `cb_continue`, which returns `0` whenever it is invoked, is not
invoked, and the scan returns the status of the backend, not `0`. -/
theorem C3_counterexample :
    example_hs_set.compiled = true ∧
    (∀ mp s t tx l u w, (cb_continue mp s t tx l u w).1 = 0) ∧
    ∃ res,
      rspamd_multipattern_lookup refusing_engines Backend.hyperscan example_hs_set
        "abc".toList 3 (traced cb_continue) 0 true ((), []) = some res ∧
      (∀ c ∈ res.world.2, c.result = 0) ∧ res.ret = HS_INVALID ∧ res.ret ≠ 0 :=
  ⟨rfl, fun _ _ _ _ _ _ _ => rfl, _, rfl, by decide, rfl, by decide⟩

/-- C2, as the code has it.  For a compiled set and a scan that the backend
does not refuse (the trie backend refuses none; for Hyperscan, `hs_scan` on
the set and buffer raises events instead of failing):
`rspamd_multipattern_lookup` returns `0` exactly when no invocation of the
callback returned a nonzero value, and otherwise returns the value of the
last invocation. -/
theorem C2_result_from_callback {W : Type} (E : Engines) (b : Backend)
    (mp : rspamd_multipattern) (in_ : List Char) (len : Nat) (cb : rspamd_multipattern_cb_t W)
    (ud : Nat) (pnfound : Bool) (w : W)
    (hc : mp.compiled = true)
    (hscan : b = Backend.hyperscan →
      ∃ hevs, E.hs_scan mp.db in_ len 0 mp.scratch = Except.ok hevs) :
    ∃ res res0,
      rspamd_multipattern_lookup E b mp in_ len (traced cb) ud pnfound (w, []) = some res ∧
      rspamd_multipattern_lookup E b mp in_ len cb ud pnfound w = some res0 ∧
      res0.ret = res.ret ∧
      (res.ret = 0 ↔ ∀ c ∈ res.world.2, c.result = 0) ∧
      (res.ret ≠ 0 → res.world.2.getLast?.map CbCall.result = some res.ret) := by
  have hev : ∃ evs, match_events E b mp in_ len = Except.ok evs := by
    cases b with
    | acism => exact ⟨_, rfl⟩
    | hyperscan =>
      obtain ⟨hevs, h⟩ := hscan rfl
      refine ⟨hevs.map fun m => ((m.id : Int), (m.to_ : Int)), ?_⟩
      simp only [match_events, h]
  obtain ⟨evs, hev⟩ := hev
  obtain ⟨res, hres, h1, -, h3, -, -⟩ := lookup_traced E b mp in_ len cb ud pnfound w evs hc hev
  obtain ⟨res0, hres0, h01, -, -, -⟩ := lookup_plain E b mp in_ len cb ud pnfound w evs hc hev
  have hlog : res.world.2.map CbCall.result =
      (answers cb mp in_ len ud evs w).take (stop_count (answers cb mp in_ len ud evs w)) := by
    rw [h3]
    exact result_zipWith _ _ _ _ _ _ (take_stop_lengths cb mp in_ len ud evs w _)
  obtain ⟨ha, hb⟩ := stop_answers (answers cb mp in_ len ud evs w)
  refine ⟨res, res0, hres, hres0, by rw [h01, h1], ?_, ?_⟩
  · rw [h1, ha, ← hlog]
    simp
  · intro hne
    rw [h1] at hne ⊢
    rw [← List.getLast?_map, hlog]
    exact hb hne

/-- Witness of C2: the Hyperscan set of `bc` and `abc` on the buffer `abc`,
with a callback that stops at the first match. -/
theorem C2_result_from_callback_witness :
    ∃ res res0,
      rspamd_multipattern_lookup spec_engines Backend.hyperscan example_hs_set "abc".toList 3
        (traced cb_stop_id) 0 true ((), []) = some res ∧
      rspamd_multipattern_lookup spec_engines Backend.hyperscan example_hs_set "abc".toList 3
        cb_stop_id 0 true () = some res0 ∧
      res0.ret = res.ret ∧
      (res.ret = 0 ↔ ∀ c ∈ res.world.2, c.result = 0) ∧
      (res.ret ≠ 0 → res.world.2.getLast?.map CbCall.result = some res.ret) :=
  C2_result_from_callback spec_engines Backend.hyperscan example_hs_set "abc".toList 3
    cb_stop_id 0 true () (by decide) (fun _ => ⟨_, rfl⟩)

/-- Counterexample to C2 as stated: in a Hyperscan build whose `hs_scan`
refuses the call, the scan of a compiled set invokes the callback not once
and still returns a nonzero value, the status of the backend. -/
theorem C2_counterexample :
    ∃ res,
      rspamd_multipattern_lookup refusing_engines Backend.hyperscan example_hs_set
        "abc".toList 3 (traced cb_continue) 0 true ((), []) = some res ∧
      res.world.2 = [] ∧ res.ret = HS_INVALID ∧
      ¬ (res.ret = 0 ↔ ∀ c ∈ res.world.2, c.result = 0) :=
  ⟨_, rfl, rfl, rfl, by decide⟩

theorem add_pattern_hyperscan (mp : rspamd_multipattern) (p : CStr) (h : mp.compiled = false) :
    rspamd_multipattern_add_pattern Backend.hyperscan mp (some p) =
      some { mp with
        hs_flags := mp.hs_flags ++ [hs_flag_word mp.flags]
        hs_pats := mp.hs_pats ++ [p]
        hs_ids := mp.hs_ids ++ [mp.cnt]
        cnt := guint (mp.cnt + 1) } := by
  simp [rspamd_multipattern_add_pattern, h, hs_flag_word, rspamd_multipattern_pattern_filter]

theorem add_pattern_acism (mp : rspamd_multipattern) (p : CStr) (h : mp.compiled = false) :
    rspamd_multipattern_add_pattern Backend.acism mp (some p) =
      some { mp with
        pats := mp.pats ++ [{ ptr := p, len := p.length }]
        cnt := guint (mp.cnt + 1) } := by
  simp [rspamd_multipattern_add_pattern, h, strlen, rspamd_multipattern_pattern_filter]

/-- Adding a list of patterns to an uncompiled Hyperscan set, in closed
form. -/
theorem add_patterns_hyperscan (ps : List CStr) (mp : rspamd_multipattern)
    (h : mp.compiled = false) (hcnt : mp.cnt + ps.length < 4294967296) :
    add_patterns Backend.hyperscan mp ps =
      some { mp with
        hs_flags := mp.hs_flags ++ List.replicate ps.length (hs_flag_word mp.flags)
        hs_pats := mp.hs_pats ++ ps
        hs_ids := mp.hs_ids ++ List.range' mp.cnt ps.length
        cnt := mp.cnt + ps.length } := by
  induction ps generalizing mp with
  | nil => simp [add_patterns]
  | cons p ps ih =>
    simp only [List.length_cons] at hcnt
    have hg : guint (mp.cnt + 1) = mp.cnt + 1 := Nat.mod_eq_of_lt (by omega)
    simp only [add_patterns, add_pattern_hyperscan mp p h]
    rw [ih _ (by simpa using h) (by simp only [hg]; omega)]
    simp [hg, List.replicate_succ, List.range'_succ, Nat.add_assoc, Nat.add_comm 1]

/-- Adding a list of patterns to an uncompiled trie set, in closed form. -/
theorem add_patterns_acism (ps : List CStr) (mp : rspamd_multipattern)
    (h : mp.compiled = false) (hcnt : mp.cnt + ps.length < 4294967296) :
    add_patterns Backend.acism mp ps =
      some { mp with
        pats := mp.pats ++ ps.map (fun p => { ptr := p, len := p.length })
        cnt := mp.cnt + ps.length } := by
  induction ps generalizing mp with
  | nil => simp [add_patterns]
  | cons p ps ih =>
    simp only [List.length_cons] at hcnt
    have hg : guint (mp.cnt + 1) = mp.cnt + 1 := Nat.mod_eq_of_lt (by omega)
    simp only [add_patterns, add_pattern_acism mp p h]
    rw [ih _ (by simpa using h) (by simp only [hg]; omega)]
    simp [hg, Nat.add_assoc, Nat.add_comm 1]

theorem fresh_eq_create (mp0 : rspamd_multipattern) (flags : Nat)
    (hfresh : mp0 = rspamd_multipattern_create flags ∨
      ∃ n, rspamd_multipattern_create_sized n flags = some mp0) :
    mp0 = rspamd_multipattern_create flags := by
  rcases hfresh with h | ⟨n, h⟩
  · exact h
  · simp only [rspamd_multipattern_create_sized] at h
    split at h
    · simp only [Option.some.injEq] at h
      exact h.symm
    · simp at h

/-- C4 (dense ids, verbatim storage).  For every flags value and every list
of patterns (fewer than `2 ^ 32`, the range of the `guint` counter) added in
order to a set fresh from `rspamd_multipattern_create` or
`rspamd_multipattern_create_sized`: every call succeeds, the count is the
number of patterns, the flags are untouched and the set is uncompiled; in the
Hyperscan build the stored patterns are the given ones byte for byte and in
order, the id array is `[0, ..., N-1]`, the entry at index `i` has text `p_i`
and id `i`, and the three arrays have length `N`; in the trie build the entry
at index `i` has text `p_i` and recorded length the length of `p_i`. -/
theorem C4_dense_ids (b : Backend) (flags : Nat) (pats : List CStr) (mp0 : rspamd_multipattern)
    (hfresh : mp0 = rspamd_multipattern_create flags ∨
      ∃ n, rspamd_multipattern_create_sized n flags = some mp0)
    (hN : pats.length < 4294967296) :
    ∃ mp, add_patterns b mp0 pats = some mp ∧
      mp.cnt = pats.length ∧ mp.flags = flags ∧ mp.compiled = false ∧
      (b = Backend.hyperscan →
        mp.hs_pats = pats ∧ mp.hs_ids = List.range pats.length ∧
        mp.hs_pats.length = pats.length ∧ mp.hs_ids.length = pats.length ∧
        mp.hs_flags.length = pats.length ∧
        ∀ i, i < pats.length → mp.hs_pats[i]? = pats[i]? ∧ mp.hs_ids[i]? = some i) ∧
      (b = Backend.acism →
        mp.pats.length = pats.length ∧
        ∀ i, i < pats.length →
          (mp.pats[i]?).map ac_trie_pat_t.ptr = pats[i]? ∧
          (mp.pats[i]?).map ac_trie_pat_t.len = (pats[i]?).map List.length) := by
  have h0 := fresh_eq_create mp0 flags hfresh
  subst h0
  cases b with
  | hyperscan =>
    rw [add_patterns_hyperscan pats _ rfl (by simpa [rspamd_multipattern_create] using hN)]
    refine ⟨_, rfl, by simp [rspamd_multipattern_create], rfl, rfl, fun _ => ?_, (fun h => by cases h)⟩
    simp only [rspamd_multipattern_create, List.nil_append, List.range_eq_range', List.length_range',
      List.length_replicate, true_and]
    intro i hi
    simp [List.getElem?_range', hi]
  | acism =>
    rw [add_patterns_acism pats _ rfl (by simpa [rspamd_multipattern_create] using hN)]
    refine ⟨_, rfl, by simp [rspamd_multipattern_create], rfl, rfl, (fun h => by cases h), fun _ => ?_⟩
    simp only [rspamd_multipattern_create, List.nil_append, List.length_map, true_and]
    intro i hi
    simp [List.getElem?_map, Option.map_map, Function.comp_def]

/-- Witness of C4: two patterns added to a fresh Hyperscan set with both flags
on. -/
theorem C4_dense_ids_witness :
    ∃ mp, add_patterns Backend.hyperscan (rspamd_multipattern_create 3)
        ["ab".toList, "a.c".toList] = some mp ∧
      mp.cnt = ["ab".toList, "a.c".toList].length ∧ mp.flags = 3 ∧ mp.compiled = false ∧
      (Backend.hyperscan = Backend.hyperscan →
        mp.hs_pats = ["ab".toList, "a.c".toList] ∧
        mp.hs_ids = List.range ["ab".toList, "a.c".toList].length ∧
        mp.hs_pats.length = ["ab".toList, "a.c".toList].length ∧
        mp.hs_ids.length = ["ab".toList, "a.c".toList].length ∧
        mp.hs_flags.length = ["ab".toList, "a.c".toList].length ∧
        ∀ i, i < ["ab".toList, "a.c".toList].length →
          mp.hs_pats[i]? = ["ab".toList, "a.c".toList][i]? ∧ mp.hs_ids[i]? = some i) ∧
      (Backend.hyperscan = Backend.acism →
        mp.pats.length = ["ab".toList, "a.c".toList].length ∧
        ∀ i, i < ["ab".toList, "a.c".toList].length →
          (mp.pats[i]?).map ac_trie_pat_t.ptr = ["ab".toList, "a.c".toList][i]? ∧
          (mp.pats[i]?).map ac_trie_pat_t.len =
            (["ab".toList, "a.c".toList][i]?).map List.length) :=
  C4_dense_ids Backend.hyperscan 3 ["ab".toList, "a.c".toList] (rspamd_multipattern_create 3)
    (Or.inl rfl) (by decide)

theorem guint_lt (n : Nat) : guint n < 4294967296 := Nat.mod_lt _ (by norm_num)

theorem guint_guint_add (x y : Nat) : guint (guint x + y) = guint (x + y) := by
  simp [guint, Nat.add_mod]

theorem add_pattern_cnt (b : Backend) (mp mp1 : rspamd_multipattern) (p : Option CStr)
    (h : rspamd_multipattern_add_pattern b mp p = some mp1) :
    mp1.cnt = guint (mp.cnt + 1) := by
  cases p with
  | none => simp [rspamd_multipattern_add_pattern] at h
  | some p =>
    cases hc : mp.compiled with
    | true => simp [rspamd_multipattern_add_pattern, hc] at h
    | false =>
      cases b with
      | hyperscan =>
        rw [add_pattern_hyperscan mp p hc] at h
        simp only [Option.some.injEq] at h
        rw [← h]
      | acism =>
        rw [add_pattern_acism mp p hc] at h
        simp only [Option.some.injEq] at h
        rw [← h]

theorem compile_cnt (E : Engines) (b : Backend) (mp : rspamd_multipattern) (err : Bool)
    (r : CompileResult) (h : rspamd_multipattern_compile E b mp err = some r) :
    r.mp.cnt = mp.cnt := by
  simp only [rspamd_multipattern_compile] at h
  split at h
  · simp at h
  · cases b with
    | acism =>
      simp only [Option.some.injEq] at h
      rw [← h]
    | hyperscan =>
      simp only at h
      split at h
      · split at h
        · split at h
          · simp at h
          · simp only [Option.some.injEq] at h
            rw [← h]
        · split at h
          · simp at h
          · simp only [Option.some.injEq] at h
            rw [← h]
      · simp at h

theorem run_ops_cnt (E : Engines) (b : Backend) (ops : List Op) (mp mp1 : rspamd_multipattern)
    (h : run_ops E b mp ops = some mp1) :
    guint mp1.cnt = guint (mp.cnt + count_adds ops) ∧ (mp.cnt < 4294967296 → mp1.cnt < 4294967296) := by
  induction ops generalizing mp with
  | nil =>
    simp only [run_ops, Option.some.injEq] at h
    subst h
    simp [count_adds]
  | cons op ops ih =>
    simp only [run_ops] at h
    split at h
    · simp at h
    · rename_i mp2 hop
      obtain ⟨h1, h2⟩ := ih mp2 h
      cases op with
      | add_pattern p =>
        have hc := add_pattern_cnt b mp mp2 p hop
        refine ⟨?_, fun _ => h2 (hc ▸ guint_lt _)⟩
        rw [h1, hc, guint_guint_add, count_adds]
        congr 1
        omega
      | compile err =>
        simp only [run_op] at hop
        split at hop
        · simp at hop
        · rename_i r hr
          simp only [Option.some.injEq] at hop
          have hc := compile_cnt E b mp err r hr
          rw [hop] at hc
          rw [count_adds, h1, hc]
          exact ⟨rfl, fun hlt => h2 (hc ▸ hlt)⟩

theorem create_full_loop_cnt (b : Backend) (arr : List (Option CStr)) (todo i : Nat)
    (mp mp1 : rspamd_multipattern) (h : create_full_loop b arr todo i mp = some mp1) :
    guint mp1.cnt = guint (mp.cnt + todo) ∧ (mp.cnt < 4294967296 → mp1.cnt < 4294967296) := by
  induction todo generalizing i mp with
  | zero =>
    simp only [create_full_loop, Option.some.injEq] at h
    subst h
    simp
  | succ n ih =>
    simp only [create_full_loop] at h
    split at h
    · simp at h
    · split at h
      · simp at h
      · rename_i p _ _ mp2 hadd
        obtain ⟨h1, h2⟩ := ih (i + 1) mp2 h
        have hc := add_pattern_cnt b mp mp2 p hadd
        refine ⟨?_, fun _ => h2 (hc ▸ guint_lt _)⟩
        rw [h1, hc, guint_guint_add]
        congr 1
        omega

theorem run_ctor_cnt (b : Backend) (c : Ctor) (mp : rspamd_multipattern)
    (h : run_ctor b c = some mp) :
    guint mp.cnt = guint (ctor_patterns c) ∧ mp.cnt < 4294967296 := by
  cases c with
  | create flags =>
    simp only [run_ctor, Option.some.injEq] at h
    subst h
    simp [rspamd_multipattern_create, ctor_patterns]
  | create_sized n flags =>
    simp only [run_ctor, rspamd_multipattern_create_sized] at h
    split at h
    · simp only [Option.some.injEq] at h
      subst h
      simp [ctor_patterns]
    · simp at h
  | create_full patterns n flags =>
    simp only [run_ctor, rspamd_multipattern_create_full, rspamd_multipattern_create_sized] at h
    split at h
    · cases patterns with
      | none => simp at h
      | some arr =>
        simp only at h
        obtain ⟨h1, h2⟩ := create_full_loop_cnt b arr n 0 _ mp h
        simp only [Nat.zero_add] at h1
        exact ⟨by simpa [ctor_patterns] using h1, h2 (by norm_num)⟩
    · simp at h

/-- C7, as the code has it.  After any constructor and any sequence of
`add_pattern` and `compile` operations that runs without abort, the count of
the set, compiled or not, is the number of patterns that were added to it (by
`create_full` and by `add_pattern`), reduced to `guint`; it is at least `1`
when at least one and fewer than `2 ^ 32` patterns were added.  `compile`
itself does not look at the count. -/
theorem C7_count_is_patterns_added (E : Engines) (b : Backend) (c : Ctor) (ops : List Op)
    (mp : rspamd_multipattern) (h : run E b c ops = some mp) :
    mp.cnt = guint (ctor_patterns c + count_adds ops) ∧
      (0 < ctor_patterns c + count_adds ops →
        ctor_patterns c + count_adds ops < 4294967296 → 1 ≤ mp.cnt) := by
  simp only [run] at h
  split at h
  · simp at h
  · rename_i mp0 h0
    obtain ⟨hc1, hc2⟩ := run_ctor_cnt b c mp0 h0
    obtain ⟨ho1, ho2⟩ := run_ops_cnt E b ops mp0 mp h
    have hlt := ho2 hc2
    have hcnt : mp.cnt = guint (ctor_patterns c + count_adds ops) := by
      have e1 : guint mp.cnt = mp.cnt := Nat.mod_eq_of_lt hlt
      have e2 : guint mp0.cnt = mp0.cnt := Nat.mod_eq_of_lt hc2
      rw [← e1, ho1, ← e2, hc1, guint_guint_add]
    refine ⟨hcnt, fun hpos hlt2 => ?_⟩
    rw [hcnt, guint, Nat.mod_eq_of_lt hlt2]
    exact hpos

/-- Witness of C7: `create_full` of `ab` and `abc`, one more `add_pattern`,
then `compile`, in the trie build. -/
theorem C7_count_is_patterns_added_witness :
    example_run_set.cnt =
        guint (ctor_patterns (Ctor.create_full (some [some "ab".toList, some "abc".toList]) 2 0) +
          count_adds [Op.add_pattern (some "x".toList), Op.compile true]) ∧
      1 ≤ example_run_set.cnt :=
  ⟨(C7_count_is_patterns_added spec_engines Backend.acism
      (Ctor.create_full (some [some "ab".toList, some "abc".toList]) 2 0)
      [Op.add_pattern (some "x".toList), Op.compile true] example_run_set (by decide)).1,
   (C7_count_is_patterns_added spec_engines Backend.acism
      (Ctor.create_full (some [some "ab".toList, some "abc".toList]) 2 0)
      [Op.add_pattern (some "x".toList), Op.compile true] example_run_set (by decide)).2
      (by decide) (by decide)⟩

/-- Counterexample to C7 as stated: in the trie build, `compile` applied
directly to the result of `rspamd_multipattern_create` succeeds and leaves a
compiled set with no pattern. -/
theorem C7_counterexample :
    ∃ mp, run spec_engines Backend.acism (Ctor.create 0) [Op.compile true] = some mp ∧
      mp.compiled = true ∧ mp.cnt = 0 ∧ ¬ (1 ≤ mp.cnt) :=
  ⟨_, rfl, rfl, rfl, by decide⟩

/-- C8, as the code has it.  `rspamd_multipattern_add_pattern` rejects a NULL
pattern on every set and every pattern on a compiled set; on an uncompiled
set the empty string is accepted and appended like any other pattern, with
the next id. -/
theorem C8_null_rejected_empty_stored (b : Backend) (mp : rspamd_multipattern) :
    rspamd_multipattern_add_pattern b mp none = none ∧
      (mp.compiled = true → ∀ p, rspamd_multipattern_add_pattern b mp p = none) ∧
      (mp.compiled = false →
        ∃ mp1, rspamd_multipattern_add_pattern b mp (some []) = some mp1 ∧
          mp1.cnt = guint (mp.cnt + 1) ∧ mp1.compiled = false ∧
          (b = Backend.hyperscan →
            mp1.hs_pats = mp.hs_pats ++ [[]] ∧ mp1.hs_ids = mp.hs_ids ++ [mp.cnt]) ∧
          (b = Backend.acism → mp1.pats = mp.pats ++ [{ ptr := [], len := 0 }])) := by
  refine ⟨rfl, fun hc p => ?_, fun hc => ?_⟩
  · cases p with
    | none => rfl
    | some p => simp [rspamd_multipattern_add_pattern, hc]
  · cases b with
    | hyperscan =>
      rw [add_pattern_hyperscan mp [] hc]
      exact ⟨_, rfl, rfl, hc, fun _ => ⟨rfl, rfl⟩, (fun h => by cases h)⟩
    | acism =>
      rw [add_pattern_acism mp [] hc]
      exact ⟨_, rfl, rfl, hc, (fun h => by cases h), fun _ => rfl⟩

/-- Witness of C8: the compiled trie set rejects a pattern, the uncompiled
Hyperscan set stores the empty string. -/
theorem C8_null_rejected_empty_stored_witness :
    (∀ p, rspamd_multipattern_add_pattern Backend.acism example_trie_set p = none) ∧
      ∃ mp1, rspamd_multipattern_add_pattern Backend.hyperscan example_regex_set (some []) =
          some mp1 ∧
        mp1.cnt = guint (example_regex_set.cnt + 1) ∧ mp1.compiled = false ∧
        (Backend.hyperscan = Backend.hyperscan →
          mp1.hs_pats = example_regex_set.hs_pats ++ [[]] ∧
          mp1.hs_ids = example_regex_set.hs_ids ++ [example_regex_set.cnt]) ∧
        (Backend.hyperscan = Backend.acism →
          mp1.pats = example_regex_set.pats ++ [{ ptr := [], len := 0 }]) :=
  ⟨(C8_null_rejected_empty_stored Backend.acism example_trie_set).2.1 (by decide),
   (C8_null_rejected_empty_stored Backend.hyperscan example_regex_set).2.2 (by decide)⟩

/-- Counterexample to C8 as stated: the empty string added to a fresh,
uncompiled set is not rejected; it becomes entry `0`. -/
theorem C8_counterexample :
    ∃ mp, rspamd_multipattern_add_pattern Backend.acism (rspamd_multipattern_create 0)
        (some []) = some mp ∧
      mp.cnt = 1 ∧ mp.pats = [{ ptr := [], len := 0 }] :=
  ⟨_, rfl, rfl, rfl⟩

theorem create_full_loop_some (b : Backend) (arr : List (Option CStr)) (todo i : Nat)
    (mp : rspamd_multipattern) (hc : mp.compiled = false)
    (harr : ∀ j, i ≤ j → j < i + todo → ∃ p, arr[j]? = some (some p)) :
    (create_full_loop b arr todo i mp).isSome = true := by
  induction todo generalizing i mp with
  | zero => rfl
  | succ n ih =>
    obtain ⟨p, hp⟩ := harr i (Nat.le_refl _) (by omega)
    simp only [create_full_loop, hp]
    cases b with
    | hyperscan =>
      rw [add_pattern_hyperscan mp p hc]
      exact ih (i + 1) _ hc (fun j h1 h2 => harr j (by omega) (by omega))
    | acism =>
      rw [add_pattern_acism mp p hc]
      exact ih (i + 1) _ hc (fun j h1 h2 => harr j (by omega) (by omega))

/-- C9 (lifecycle preconditions).  `rspamd_multipattern_create_sized` and
`rspamd_multipattern_create_full` with `0` patterns fail for every flags
value; `rspamd_multipattern_add_pattern` fails on every compiled set;
`rspamd_multipattern_lookup` fails on every uncompiled set.  Each operation
returns when its precondition holds: `create_sized` with a positive capacity,
`create_full` with a positive count `n` over an array whose first `n` entries
are strings, `add_pattern` of a string to an uncompiled set, and `lookup` on
a compiled set. -/
theorem C9_lifecycle_preconditions :
    (∀ flags, rspamd_multipattern_create_sized 0 flags = none) ∧
    (∀ b patterns flags, rspamd_multipattern_create_full b patterns 0 flags = none) ∧
    (∀ b mp p, mp.compiled = true → rspamd_multipattern_add_pattern b mp p = none) ∧
    (∀ (W : Type) E b mp in_ len (cb : rspamd_multipattern_cb_t W) ud pnfound w,
      mp.compiled = false → rspamd_multipattern_lookup E b mp in_ len cb ud pnfound w = none) ∧
    (∀ n flags, 0 < n → (rspamd_multipattern_create_sized n flags).isSome = true) ∧
    (∀ b arr n flags, 0 < n → (∀ j, j < n → ∃ p, arr[j]? = some (some p)) →
      (rspamd_multipattern_create_full b (some arr) n flags).isSome = true) ∧
    (∀ b mp p, mp.compiled = false →
      (rspamd_multipattern_add_pattern b mp (some p)).isSome = true) ∧
    (∀ (W : Type) E b mp in_ len (cb : rspamd_multipattern_cb_t W) ud pnfound w,
      mp.compiled = true →
        (rspamd_multipattern_lookup E b mp in_ len cb ud pnfound w).isSome = true) := by
  refine ⟨fun _ => rfl, fun _ _ _ => rfl, fun b mp p hc => ?_, ?_, fun n flags hn => ?_,
    fun b arr n flags hn harr => ?_, fun b mp p hc => ?_, ?_⟩
  · cases p with
    | none => rfl
    | some p => simp [rspamd_multipattern_add_pattern, hc]
  · intro W E b mp in_ len cb ud pnfound w hc
    simp [rspamd_multipattern_lookup, hc]
  · simp [rspamd_multipattern_create_sized, hn]
  · simp only [rspamd_multipattern_create_full, rspamd_multipattern_create_sized, hn, if_true]
    exact create_full_loop_some b arr n 0 _ rfl (fun j _ h2 => harr j (by omega))
  · cases b with
    | hyperscan => rw [add_pattern_hyperscan mp p hc]; rfl
    | acism => rw [add_pattern_acism mp p hc]; rfl
  · intro W E b mp in_ len cb ud pnfound w hc
    simp [rspamd_multipattern_lookup, hc]

/-- Witness of C9: each clause at a concrete set. -/
theorem C9_lifecycle_preconditions_witness :
    rspamd_multipattern_create_sized 0 1 = none ∧
    rspamd_multipattern_add_pattern Backend.hyperscan example_hs_set (some "x".toList) = none ∧
    rspamd_multipattern_lookup spec_engines Backend.hyperscan example_regex_set "ab".toList 2
      cb_continue 0 true () = none ∧
    (rspamd_multipattern_create_sized 4 1).isSome = true ∧
    (rspamd_multipattern_create_full Backend.acism (some [some "ab".toList, some "abc".toList])
      2 0).isSome = true ∧
    (rspamd_multipattern_add_pattern Backend.hyperscan example_regex_set
      (some "x".toList)).isSome = true ∧
    (rspamd_multipattern_lookup spec_engines Backend.acism example_trie_set "abc".toList 3
      cb_continue 0 true ()).isSome = true :=
  ⟨C9_lifecycle_preconditions.1 1,
   C9_lifecycle_preconditions.2.2.1 Backend.hyperscan example_hs_set (some "x".toList)
     (by decide),
   C9_lifecycle_preconditions.2.2.2.1 Unit spec_engines Backend.hyperscan example_regex_set
     "ab".toList 2 cb_continue 0 true () (by decide),
   C9_lifecycle_preconditions.2.2.2.2.1 4 1 (by decide),
   C9_lifecycle_preconditions.2.2.2.2.2.1 Backend.acism [some "ab".toList, some "abc".toList]
     2 0 (by decide)
     (fun j hj =>
       match j, hj with
       | 0, _ => ⟨"ab".toList, rfl⟩
       | 1, _ => ⟨"abc".toList, rfl⟩
       | n + 2, h => absurd h (by omega)),
   C9_lifecycle_preconditions.2.2.2.2.2.2.1 Backend.hyperscan example_regex_set "x".toList
     (by decide),
   C9_lifecycle_preconditions.2.2.2.2.2.2.2 Unit spec_engines Backend.acism example_trie_set
     "abc".toList 3 cb_continue 0 true () (by decide)⟩

theorem compile_error_message_contains (pat reason : List Char) :
    pat <:+: compile_error_message pat reason ∧
      reason <:+: compile_error_message pat reason := by
  constructor
  · exact ⟨"cannot create tree of regexp when processing '".toList, "': ".toList ++ reason,
      by simp [compile_error_message]⟩
  · exact ⟨"cannot create tree of regexp when processing '".toList ++ pat ++ "': ".toList, [],
      by simp [compile_error_message]⟩

/-- A compile failure that names a stored pattern is a reported data error.
In the Hyperscan build, with the platform call successful: when
`hs_compile_multi` rejects the tables of an uncompiled set with an error whose
expression index lies in the pattern table, `rspamd_multipattern_compile`
returns `FALSE`, leaves the set exactly as it was (uncompiled, entries
unchanged), and the error it sets has domain `multipattern`, code `EINVAL`
and a message that contains the stored pattern at that index and the reason
given by the backend.  In the trie build `compile` on an uncompiled set
always returns `TRUE` without an error. -/
theorem compile_failure_reported (E : Engines) (mp : rspamd_multipattern)
    (e : hs_compile_error_t) (pat : CStr)
    (hc : mp.compiled = false)
    (hplt : E.hs_populate_platform = HS_SUCCESS)
    (hrej : E.hs_compile_multi mp.hs_pats mp.hs_flags mp.hs_ids mp.cnt HS_MODE_BLOCK =
      Except.error e)
    (hidx : g_array_index mp.hs_pats e.expression = some pat) :
    (∃ msg, rspamd_multipattern_compile E Backend.hyperscan mp true =
        some { ret := false, mp := mp,
               err := some { domain := "multipattern", code := 22, message := msg } } ∧
      pat <:+: msg ∧ e.message <:+: msg) ∧
    rspamd_multipattern_compile E Backend.hyperscan mp false =
      some { ret := false, mp := mp, err := none } ∧
    (∀ (E1 : Engines) (mp1 : rspamd_multipattern) (err : Bool), mp1.compiled = false →
      ∃ r, rspamd_multipattern_compile E1 Backend.acism mp1 err = some r ∧
        r.ret = true ∧ r.err = none ∧ r.mp.compiled = true) := by
  refine ⟨⟨compile_error_message pat e.message, ?_, compile_error_message_contains pat e.message⟩,
    ?_, fun E1 mp1 err h1 => ?_⟩
  · simp [rspamd_multipattern_compile, hc, hplt, hrej, hidx, rspamd_multipattern_quark, EINVAL]
  · simp [rspamd_multipattern_compile, hc, hplt, hrej, hidx]
  · refine ⟨{ ret := true,
               mp := { mp1 with t := some (E1.acism_create mp1.pats mp1.cnt), compiled := true },
               err := none }, ?_, rfl, rfl, rfl⟩
    simp [rspamd_multipattern_compile, h1]

/-- The Hyperscan set of `ab` and `a.c`, whose second pattern the modelled
engine rejects: the failure is reported with the text of that pattern. -/
theorem compile_failure_reported_example :
    (∃ msg, rspamd_multipattern_compile spec_engines Backend.hyperscan example_regex_set true =
        some { ret := false, mp := example_regex_set,
               err := some { domain := "multipattern", code := 22, message := msg } } ∧
      "a.c".toList <:+: msg ∧
      (hs_compile_error_t.mk "unsupported construct".toList 1).message <:+: msg) ∧
    rspamd_multipattern_compile spec_engines Backend.hyperscan example_regex_set false =
      some { ret := false, mp := example_regex_set, err := none } ∧
    (∀ (E1 : Engines) (mp1 : rspamd_multipattern) (err : Bool), mp1.compiled = false →
      ∃ r, rspamd_multipattern_compile E1 Backend.acism mp1 err = some r ∧
        r.ret = true ∧ r.err = none ∧ r.mp.compiled = true) :=
  compile_failure_reported spec_engines example_regex_set
    { message := "unsupported construct".toList, expression := 1 } "a.c".toList
    (by decide) (by decide) rfl (by decide)

/-! ### The literal trie reports exactly the occurrences -/

theorem is_node_iff (pats : List (List Char)) (s : List Char) :
    is_node pats s = true ↔ ∃ p ∈ pats, s <+: p := by
  simp [is_node, List.any_eq_true, List.isPrefixOf_iff_prefix]

theorem node_prefix_closed (pats : List (List Char)) (s t : List Char) (hst : s <+: t)
    (ht : is_node pats t = true) : is_node pats s = true := by
  rw [is_node_iff] at ht ⊢
  obtain ⟨p, hp, htp⟩ := ht
  exact ⟨p, hp, hst.trans htp⟩

theorem fall_back_suffix (pats : List (List Char)) (x : List Char) : fall_back pats x <:+ x := by
  induction x with
  | nil => exact List.suffix_refl _
  | cons c s ih =>
    simp only [fall_back]
    split
    · exact List.suffix_refl _
    · exact ih.trans (List.suffix_cons c s)

theorem fall_back_node (pats : List (List Char)) (x : List Char) (h : fall_back pats x ≠ []) :
    is_node pats (fall_back pats x) = true := by
  induction x with
  | nil => simp [fall_back] at h
  | cons c s ih =>
    simp only [fall_back] at h ⊢
    split
    · assumption
    · rename_i hn
      simp only [hn] at h
      exact ih h

theorem fall_back_max (pats : List (List Char)) (x t : List Char) (ht : t <:+ x)
    (hn : is_node pats t = true) : t <:+ fall_back pats x := by
  induction x with
  | nil => simpa [fall_back] using ht
  | cons c s ih =>
    simp only [fall_back]
    split
    · exact ht
    · rename_i hc
      rcases List.suffix_cons_iff.1 ht with h | h
      · subst h
        exact absurd hn hc
      · exact ih h

theorem suffix_antisymm {α : Type} (a b : List α) (h1 : a <:+ b) (h2 : b <:+ a) : a = b :=
  h1.eq_of_length (Nat.le_antisymm h1.length_le h2.length_le)

/-- The longest node suffix is determined by the node suffixes. -/
theorem fall_back_congr (pats : List (List Char)) (x y : List Char) (hyx : y <:+ x)
    (h : ∀ t, t <:+ x → is_node pats t = true → t <:+ y) :
    fall_back pats y = fall_back pats x := by
  apply suffix_antisymm
  · by_cases hA : fall_back pats y = []
    · rw [hA]; exact List.nil_suffix
    · exact fall_back_max pats x _ ((fall_back_suffix pats y).trans hyx) (fall_back_node pats y hA)
  · by_cases hB : fall_back pats x = []
    · rw [hB]; exact List.nil_suffix
    · exact fall_back_max pats y _
        (h _ (fall_back_suffix pats x) (fall_back_node pats x hB)) (fall_back_node pats x hB)

theorem suffix_snoc {α : Type} (t u : List α) (c : α) (h : t <:+ u ++ [c]) :
    t = [] ∨ ∃ t1, t = t1 ++ [c] ∧ t1 <:+ u := by
  rcases List.eq_nil_or_concat t with ht | ⟨t1, d, ht⟩
  · exact Or.inl ht
  · right
    rw [List.concat_eq_append] at ht
    subst ht
    obtain ⟨r, hr⟩ := h
    rw [← List.append_assoc] at hr
    obtain ⟨h1, h2⟩ := List.append_inj' hr rfl
    simp only [List.cons.injEq, and_true] at h2
    subst h2
    exact ⟨t1, rfl, r, h1⟩

theorem snoc_suffix_snoc {α : Type} (s u : List α) (c : α) (h : s <:+ u) :
    s ++ [c] <:+ u ++ [c] := by
  obtain ⟨r, hr⟩ := h
  exact ⟨r, by rw [← List.append_assoc, hr]⟩

/-- The longest node suffix of a text extended by one byte is found from the
longest node suffix of the text. -/
theorem fall_back_snoc (pats : List (List Char)) (u : List Char) (c : Char) :
    fall_back pats (fall_back pats u ++ [c]) = fall_back pats (u ++ [c]) := by
  apply fall_back_congr
  · exact snoc_suffix_snoc _ _ _ (fall_back_suffix pats u)
  · intro t ht hn
    rcases suffix_snoc t u c ht with h | ⟨t1, h, h1⟩
    · rw [h]; exact List.nil_suffix
    · subst h
      exact snoc_suffix_snoc _ _ _
        (fall_back_max pats u t1 h1 (node_prefix_closed pats t1 _ (List.prefix_append _ _) hn))

theorem fall_back_of_node (pats : List (List Char)) (x : List Char)
    (h : is_node pats x = true) : fall_back pats x = x := by
  cases x with
  | nil => rfl
  | cons c s => simp [fall_back, h]

theorem fall_back_root_or_node (pats : List (List Char)) (x : List Char) :
    fall_back pats x = [] ∨ is_node pats (fall_back pats x) = true := by
  by_cases h : fall_back pats x = []
  · exact Or.inl h
  · exact Or.inr (fall_back_node pats x h)

/-- With enough fuel, following failure links from a node on a byte ends in
the longest node suffix of the node extended by the byte. -/
theorem ac_goto_eq (pats : List (List Char)) (c : Char) (fuel : Nat) (s : List Char)
    (hs : s = [] ∨ is_node pats s = true) (hf : s.length < fuel) :
    ac_goto pats fuel s c = fall_back pats (s ++ [c]) := by
  induction fuel generalizing s with
  | zero => omega
  | succ n ih =>
    simp only [ac_goto]
    split
    · rename_i hn
      exact (fall_back_of_node pats _ hn).symm
    · rename_i hn
      cases s with
      | nil =>
        simp only [List.nil_append] at hn
        simp [fall_back, hn]
      | cons d t =>
        simp only [List.cons_ne_nil, if_false, ac_failure, List.tail_cons]
        have hlen : (fall_back pats t).length < n := by
          have := (fall_back_suffix pats t).length_le
          simp only [List.length_cons] at hf
          omega
        rw [ih (fall_back pats t) (fall_back_root_or_node pats t) hlen, fall_back_snoc]
        simp only [List.cons_append] at hn ⊢
        simp [fall_back, hn]

/-- The state of the trie after a step is the longest node suffix of the text
read so far. -/
theorem ac_goto_fall_back (pats : List (List Char)) (u : List Char) (c : Char) :
    ac_goto pats ((fall_back pats u).length + 1) (fall_back pats u) c =
      fall_back pats (u ++ [c]) := by
  rw [ac_goto_eq pats c _ _ (fall_back_root_or_node pats u) (Nat.lt_succ_self _), fall_back_snoc]

theorem mem_ids_from (t : List Char) (ps : List (List Char)) (i j : Nat) :
    j ∈ ids_from t i ps ↔ ∃ k, j = i + k ∧ ps[k]? = some t := by
  induction ps generalizing i with
  | nil => simp [ids_from]
  | cons p ps ih =>
    simp only [ids_from]
    constructor
    · intro h
      split at h
      · rename_i hp
        rcases List.mem_cons.1 h with h | h
        · exact ⟨0, by omega, by simp [hp]⟩
        · obtain ⟨k, hk, hk2⟩ := (ih (i + 1)).1 h
          exact ⟨k + 1, by omega, by simpa using hk2⟩
      · obtain ⟨k, hk, hk2⟩ := (ih (i + 1)).1 h
        exact ⟨k + 1, by omega, by simpa using hk2⟩
    · rintro ⟨k, hk, hk2⟩
      cases k with
      | zero =>
        simp only [List.getElem?_cons_zero, Option.some.injEq] at hk2
        simp [hk2, hk]
      | succ k =>
        simp only [List.getElem?_cons_succ] at hk2
        have := (ih (i + 1)).2 ⟨k, by omega, hk2⟩
        split
        · exact List.mem_cons_of_mem _ this
        · exact this

theorem ids_from_nodup (t : List Char) (ps : List (List Char)) (i : Nat) :
    (ids_from t i ps).Nodup := by
  induction ps generalizing i with
  | nil => simp [ids_from]
  | cons p ps ih =>
    simp only [ids_from]
    split
    · refine List.nodup_cons.2 ⟨fun h => ?_, ih _⟩
      obtain ⟨k, hk, -⟩ := (mem_ids_from t ps (i + 1) i).1 h
      omega
    · exact ih _

/-- Whatever the fuel, a pattern reported at a node is non-empty and ends
where the node ends. -/
theorem ac_output_sound (pats : List (List Char)) (fuel : Nat) (s : List Char) (i : Nat)
    (h : i ∈ ac_output pats fuel s) : ∃ p, pats[i]? = some p ∧ p ≠ [] ∧ p <:+ s := by
  induction fuel generalizing s with
  | zero => simp [ac_output] at h
  | succ n ih =>
    simp only [ac_output] at h
    split at h
    · simp at h
    · rename_i hs
      rcases List.mem_append.1 h with h | h
      · obtain ⟨k, hk, hk2⟩ := (mem_ids_from _ _ _ _).1 h
        simp only [Nat.zero_add] at hk
        subst hk
        exact ⟨s, hk2, hs, List.suffix_refl _⟩
      · obtain ⟨p, hp, hne, hsuf⟩ := ih _ h
        exact ⟨p, hp, hne, (hsuf.trans (fall_back_suffix pats _)).trans (List.tail_suffix s)⟩

/-- With enough fuel, the patterns reported at a node are exactly the
non-empty patterns that end where the node ends. -/
theorem mem_ac_output (pats : List (List Char)) (fuel : Nat) (s : List Char) (i : Nat)
    (hf : s.length < fuel) :
    i ∈ ac_output pats fuel s ↔ ∃ p, pats[i]? = some p ∧ p ≠ [] ∧ p <:+ s := by
  refine ⟨ac_output_sound pats fuel s i, ?_⟩
  induction fuel generalizing s with
  | zero => omega
  | succ n ih =>
    rintro ⟨p, hp, hne, hsuf⟩
    cases s with
    | nil => exact absurd (List.eq_nil_of_suffix_nil hsuf) hne
    | cons d t =>
      simp only [ac_output, List.cons_ne_nil, if_false, ac_failure, List.tail_cons,
        List.mem_append]
      rcases List.suffix_cons_iff.1 hsuf with h | h
      · subst h
        exact Or.inl ((mem_ids_from _ _ _ _).2 ⟨i, by simp, hp⟩)
      · right
        have hlen : (fall_back pats t).length < n := by
          have := (fall_back_suffix pats t).length_le
          simp only [List.length_cons] at hf
          omega
        refine ih _ hlen ⟨p, hp, hne, fall_back_max pats t p h ?_⟩
        rw [is_node_iff]
        exact ⟨p, List.mem_iff_getElem?.2 ⟨i, hp⟩, List.prefix_refl _⟩

theorem ac_output_nodup (pats : List (List Char)) (fuel : Nat) (s : List Char) :
    (ac_output pats fuel s).Nodup := by
  induction fuel generalizing s with
  | zero => simp [ac_output]
  | succ n ih =>
    simp only [ac_output]
    split
    · simp
    · refine List.nodup_append.2 ⟨ids_from_nodup _ _ _, ih _, fun i h1 h2 => ?_⟩
      obtain ⟨k, hk, hk2⟩ := (mem_ids_from _ _ _ _).1 h1
      obtain ⟨p, hp, -, hsuf⟩ := ac_output_sound pats n _ i h2
      simp only [Nat.zero_add] at hk
      subst hk
      rw [hk2] at hp
      simp only [Option.some.injEq] at hp
      subst hp
      cases s with
      | nil => contradiction
      | cons d t =>
        have := (hsuf.trans (fall_back_suffix pats _)).length_le
        simp [ac_failure] at this

/-- The patterns reported in the state reached after reading `u` are those
that end where `u` ends. -/
theorem mem_ac_output_fall_back (pats : List (List Char)) (u : List Char) (i : Nat) :
    i ∈ ac_output pats ((fall_back pats u).length + 1) (fall_back pats u) ↔
      ∃ p, pats[i]? = some p ∧ p ≠ [] ∧ p <:+ u := by
  rw [mem_ac_output pats _ _ i (Nat.lt_succ_self _)]
  constructor
  · rintro ⟨p, hp, hne, hs⟩
    exact ⟨p, hp, hne, hs.trans (fall_back_suffix pats u)⟩
  · rintro ⟨p, hp, hne, hs⟩
    refine ⟨p, hp, hne, fall_back_max pats u p hs ?_⟩
    rw [is_node_iff]
    exact ⟨p, List.mem_iff_getElem?.2 ⟨i, hp⟩, List.prefix_refl _⟩

/-- The events of a pass of the trie, continued after `u` was read: pattern
`i` is reported at offset `e` exactly when it is non-empty and ends at `e`. -/
theorem mem_ac_run (pats : List (List Char)) (rest u : List Char) (i e : Nat) :
    (i, e) ∈ ac_run pats (fall_back pats u) u.length rest ↔
      ∃ p, pats[i]? = some p ∧ p ≠ [] ∧ u.length < e ∧ e ≤ u.length + rest.length ∧
        p <:+ (u ++ rest).take e := by
  induction rest generalizing u with
  | nil =>
    simp only [ac_run, List.not_mem_nil, List.length_nil, Nat.add_zero, false_iff]
    rintro ⟨p, -, -, h1, h2, -⟩
    omega
  | cons c r ih =>
    have hih := ih (u ++ [c])
    simp only [List.length_append, List.length_singleton, List.append_assoc,
      List.singleton_append] at hih
    simp only [ac_run, ac_goto_fall_back, List.mem_append, List.mem_map, Prod.mk.injEq, hih,
      List.length_cons]
    constructor
    · rintro (⟨j, hj, hji, hje⟩ | ⟨p, hp, hne, h1, h2, h3⟩)
      · subst hji
        obtain ⟨p, hp, hne, hs⟩ := (mem_ac_output_fall_back pats (u ++ [c]) j).1 hj
        refine ⟨p, hp, hne, by omega, by omega, ?_⟩
        rw [← hje, show u ++ c :: r = (u ++ [c]) ++ r by simp,
          List.take_left' (by simp)]
        exact hs
      · exact ⟨p, hp, hne, by omega, by omega, h3⟩
    · rintro ⟨p, hp, hne, h1, h2, h3⟩
      by_cases he : e = u.length + 1
      · left
        refine ⟨i, (mem_ac_output_fall_back pats (u ++ [c]) i).2 ⟨p, hp, hne, ?_⟩, rfl, he.symm⟩
        rw [he, show u ++ c :: r = (u ++ [c]) ++ r by simp,
          List.take_left' (by simp)] at h3
        exact h3
      · right
        exact ⟨p, hp, hne, by omega, by omega, h3⟩

theorem ac_run_offset (pats : List (List Char)) (rest s : List Char) (pos : Nat) (x : Nat × Nat)
    (h : x ∈ ac_run pats s pos rest) : pos < x.2 := by
  induction rest generalizing s pos with
  | nil => simp [ac_run] at h
  | cons c r ih =>
    simp only [ac_run, List.mem_append, List.mem_map] at h
    rcases h with ⟨j, -, hj⟩ | h
    · rw [← hj]
      exact Nat.lt_succ_self _
    · exact Nat.lt_of_succ_lt (ih _ _ h)

theorem ac_run_nodup (pats : List (List Char)) (rest s : List Char) (pos : Nat) :
    (ac_run pats s pos rest).Nodup := by
  induction rest generalizing s pos with
  | nil => simp [ac_run]
  | cons c r ih =>
    simp only [ac_run]
    refine List.nodup_append.2 ⟨?_, ih _ _, fun x h1 h2 => ?_⟩
    · exact (ac_output_nodup pats _ _).map (fun a b hab => by simpa using hab)
    · have := ac_run_offset pats r _ _ x h2
      simp only [List.mem_map] at h1
      obtain ⟨j, -, hj⟩ := h1
      rw [← hj] at this
      simp at this

/-! ### Occurrences as suffixes -/

theorem occurs_at_iff (cl : Bool) (p text : List Char) (e : Nat) :
    occurs_at cl p text e = true ↔
      e ≤ text.length ∧ p.map (fold_case cl) <:+ (text.take e).map (fold_case cl) := by
  simp only [occurs_at, Bool.and_eq_true, decide_eq_true_eq, beq_iff_eq]
  constructor
  · rintro ⟨⟨h1, h2⟩, h3⟩
    refine ⟨h2, ?_⟩
    rw [← h3, List.map_drop]
    exact List.drop_suffix _ _
  · rintro ⟨h2, h3⟩
    have hl := h3.length_le
    simp only [List.length_map, List.length_take, Nat.min_eq_left h2] at hl
    refine ⟨⟨hl, h2⟩, ?_⟩
    have := List.suffix_iff_eq_drop.1 h3
    simp only [List.length_map, List.length_take, Nat.min_eq_left h2] at this
    rw [List.map_drop]
    exact this.symm

/-! ### The position automaton reports exactly the occurrences -/

theorem mem_nfa_step (cl : Bool) (r : List Char) (a : List Nat) (c : Char) (j1 : Nat) :
    j1 ∈ nfa_step cl r a c ↔
      ∃ j, (j = 0 ∨ j ∈ a) ∧ (r[j]?).map (fold_case cl) = some (fold_case cl c) ∧ j1 = j + 1 := by
  simp only [nfa_step, List.mem_filterMap, List.mem_cons]
  constructor
  · rintro ⟨j, hj, h⟩
    split at h
    · rename_i hc
      simp only [Option.some.injEq] at h
      exact ⟨j, hj, hc, h.symm⟩
    · simp at h
  · rintro ⟨j, hj, hc, h⟩
    exact ⟨j, hj, by simp [hc, h]⟩

theorem nfa_active_snoc (cl : Bool) (r u : List Char) (c : Char) :
    nfa_active cl r (u ++ [c]) = nfa_step cl r (nfa_active cl r u) c := by
  simp [nfa_active, List.foldl_append]

theorem take_succ_of_getElem? (r : List Char) (j : Nat) (x : Char) (h : r[j]? = some x) :
    r.take (j + 1) = r.take j ++ [x] := by
  rw [List.take_succ, h]
  rfl

theorem mem_nfa_active (cl : Bool) (r u : List Char) (j : Nat) :
    j ∈ nfa_active cl r u ↔
      1 ≤ j ∧ j ≤ r.length ∧ (r.take j).map (fold_case cl) <:+ u.map (fold_case cl) := by
  induction u using List.reverseRecOn generalizing j with
  | nil =>
    simp only [nfa_active, List.foldl_nil, List.not_mem_nil, List.map_nil, false_iff]
    rintro ⟨h1, h2, h3⟩
    have := List.eq_nil_of_suffix_nil h3
    have hl := congrArg List.length this
    simp only [List.length_map, List.length_take, List.length_nil] at hl
    omega
  | append_singleton u c ih =>
    rw [nfa_active_snoc, mem_nfa_step]
    constructor
    · rintro ⟨i, hi, hc, rfl⟩
      cases hx : r[i]? with
      | none => simp [hx] at hc
      | some x =>
        simp only [hx, Option.map_some', Option.some.injEq] at hc
        have hlt : i < r.length := by
          by_contra hge
          rw [List.getElem?_eq_none (by omega)] at hx
          cases hx
        refine ⟨by omega, by omega, ?_⟩
        rw [take_succ_of_getElem? r i x hx, List.map_append, List.map_append, List.map_singleton,
          List.map_singleton, hc]
        apply snoc_suffix_snoc
        rcases hi with h0 | hm
        · subst h0
          simp
        · exact ((ih i).1 hm).2.2
    · rintro ⟨h1, h2, h3⟩
      obtain ⟨i, rfl⟩ : ∃ i, j = i + 1 := ⟨j - 1, by omega⟩
      have hlt : i < r.length := by omega
      have hx : r[i]? = some r[i] := List.getElem?_eq_getElem hlt
      rw [take_succ_of_getElem? r i _ hx, List.map_append, List.map_append, List.map_singleton,
        List.map_singleton] at h3
      rcases suffix_snoc _ _ _ h3 with h | ⟨t1, h, ht1⟩
      · simp at h
      · obtain ⟨e1, e2⟩ := List.append_inj' h rfl
        simp only [List.cons.injEq, and_true] at e2
        refine ⟨i, ?_, by simp [hx, e2], rfl⟩
        by_cases h0 : i = 0
        · exact Or.inl h0
        · right
          refine (ih i).2 ⟨by omega, by omega, ?_⟩
          rw [e1]
          exact ht1

theorem nfa_accepts_iff (cl : Bool) (r u : List Char) :
    r.length ∈ nfa_active cl r u ↔ r ≠ [] ∧ r.map (fold_case cl) <:+ u.map (fold_case cl) := by
  rw [mem_nfa_active, List.take_of_length_le (Nat.le_refl _)]
  constructor
  · rintro ⟨h1, -, h3⟩
    refine ⟨fun h => ?_, h3⟩
    rw [h] at h1
    simp at h1
  · rintro ⟨h1, h3⟩
    exact ⟨List.length_pos.2 h1, Nat.le_refl _, h3⟩

theorem hs_step_state (rows : List hs_row) (u : List Char) (c : Char) :
    hs_step (hs_state rows u) c = hs_state rows (u ++ [c]) := by
  simp [hs_step, hs_state, nfa_active_snoc, Function.comp_def]

theorem mem_hs_reports (rows : List hs_row) (u : List Char) (pos : Nat) (m : hs_match) :
    m ∈ hs_reports (hs_state rows u) pos ↔
      ∃ row ∈ rows, row.expr ≠ [] ∧
        row.expr.map (fold_case row.caseless) <:+ u.map (fold_case row.caseless) ∧
        m = { id := row.id, from_ := 0, to_ := pos, flags := 0 } := by
  simp only [hs_reports, hs_state, List.mem_map, List.mem_filter, decide_eq_true_eq]
  constructor
  · rintro ⟨ra, ⟨⟨row, hrow, rfl⟩, hacc⟩, rfl⟩
    obtain ⟨h1, h2⟩ := (nfa_accepts_iff _ _ _).1 hacc
    exact ⟨row, hrow, h1, h2, rfl⟩
  · rintro ⟨row, hrow, h1, h2, rfl⟩
    exact ⟨_, ⟨⟨row, hrow, rfl⟩, (nfa_accepts_iff _ _ _).2 ⟨h1, h2⟩⟩, rfl⟩

/-- The events of a pass of the combined automaton, continued after `u` was
read: an expression is reported at offset `e` exactly when it is non-empty
and ends at `e` under its own comparison mode. -/
theorem mem_hs_run (rows : List hs_row) (rest u : List Char) (m : hs_match) :
    m ∈ hs_run (hs_state rows u) u.length rest ↔
      ∃ row ∈ rows, ∃ e, u.length < e ∧ e ≤ u.length + rest.length ∧ row.expr ≠ [] ∧
        row.expr.map (fold_case row.caseless) <:+
          ((u ++ rest).take e).map (fold_case row.caseless) ∧
        m = { id := row.id, from_ := 0, to_ := e, flags := 0 } := by
  induction rest generalizing u with
  | nil =>
    simp only [hs_run, List.not_mem_nil, List.length_nil, Nat.add_zero, false_iff]
    rintro ⟨row, -, e, h1, h2, -⟩
    omega
  | cons c r ih =>
    have hih := ih (u ++ [c])
    simp only [List.length_append, List.length_singleton, List.append_assoc,
      List.singleton_append] at hih
    simp only [hs_run, hs_step_state, List.mem_append, mem_hs_reports, hih, List.length_cons]
    constructor
    · rintro (⟨row, hrow, hne, hs, rfl⟩ | ⟨row, hrow, e, h1, h2, hne, hs, rfl⟩)
      · refine ⟨row, hrow, u.length + 1, by omega, by omega, hne, ?_, rfl⟩
        rw [show u ++ c :: r = (u ++ [c]) ++ r by simp, List.take_left' (by simp)]
        exact hs
      · exact ⟨row, hrow, e, by omega, by omega, hne, hs, rfl⟩
    · rintro ⟨row, hrow, e, h1, h2, hne, hs, rfl⟩
      by_cases he : e = u.length + 1
      · left
        subst he
        rw [show u ++ c :: r = (u ++ [c]) ++ r by simp, List.take_left' (by simp)] at hs
        exact ⟨row, hrow, hne, hs, rfl⟩
      · right
        exact ⟨row, hrow, e, by omega, by omega, hne, hs, rfl⟩

theorem hs_run_offset (rest : List Char) (st : List (hs_row × List Nat)) (pos : Nat)
    (m : hs_match) (h : m ∈ hs_run st pos rest) : pos < m.to_ := by
  induction rest generalizing st pos with
  | nil => simp [hs_run] at h
  | cons c r ih =>
    simp only [hs_run, List.mem_append] at h
    rcases h with h | h
    · simp only [hs_reports, List.mem_map] at h
      obtain ⟨ra, -, rfl⟩ := h
      exact Nat.lt_succ_self _
    · exact Nat.lt_of_succ_lt (ih _ _ h)

theorem hs_step_ids (st : List (hs_row × List Nat)) (c : Char) :
    (hs_step st c).map (fun ra => ra.1.id) = st.map (fun ra => ra.1.id) := by
  simp [hs_step, Function.comp_def]

theorem hs_run_pairs_nodup (rest : List Char) (st : List (hs_row × List Nat)) (pos : Nat)
    (hids : (st.map fun ra => ra.1.id).Nodup) : ((hs_run st pos rest).map hs_pair).Nodup := by
  induction rest generalizing st pos with
  | nil => simp [hs_run]
  | cons c r ih =>
    have hids1 : ((hs_step st c).map fun ra => ra.1.id).Nodup := by
      rw [hs_step_ids]; exact hids
    simp only [hs_run, List.map_append]
    refine List.nodup_append.2 ⟨?_, ih _ _ hids1, fun x h1 h2 => ?_⟩
    · have hsub : (((hs_step st c).filter fun ra => ra.1.expr.length ∈ ra.2).map
          fun ra => ra.1.id).Nodup :=
        hids1.sublist ((List.filter_sublist _).map _)
      have := hsub.map (f := fun i : Nat => ((i : Int), ((pos + 1 : Nat) : Int)))
        (fun a b hab => by simpa using hab)
      simpa [hs_reports, hs_pair, Function.comp_def] using this
    · simp only [List.mem_map] at h1 h2
      obtain ⟨m1, hm1, rfl⟩ := h1
      obtain ⟨m2, hm2, he⟩ := h2
      have ho := hs_run_offset r _ _ m2 hm2
      simp only [hs_reports, List.mem_map] at hm1
      obtain ⟨ra, -, rfl⟩ := hm1
      simp only [hs_pair, Prod.mk.injEq, Nat.cast_inj] at he
      omega

/-! ### Building a set and its match events under the modelled engines -/

theorem gint_of_nat (n : Nat) (h : n < 2147483648) : gint (n : Int) = (n : Int) := by
  simp only [gint]
  omega

theorem gint_range (n : Int) : -2147483648 ≤ gint n ∧ gint n < 2147483648 := by
  simp only [gint]
  omega

theorem build_acism (flags : Nat) (pats : List CStr) (hN : pats.length < 4294967296) :
    build spec_engines Backend.acism flags pats =
      some { db := none, scratch := none, hs_pats := [], hs_ids := [], hs_flags := [],
             t := some { strv := pats.map (fun p => { ptr := p, len := p.length }),
                         nstrs := pats.length },
             pats := pats.map (fun p => { ptr := p, len := p.length }),
             compiled := true, cnt := pats.length, flags := flags } := by
  simp only [build]
  rw [add_patterns_acism pats _ rfl (by simpa [rspamd_multipattern_create] using hN)]
  simp [rspamd_multipattern_compile, rspamd_multipattern_create, spec_engines,
    spec_acism_create]

theorem build_hyperscan (flags : Nat) (pats : List CStr) (hN : pats.length < 4294967296)
    (hne : pats ≠ []) (hlit : ∀ p ∈ pats, literal_only p = true) :
    build spec_engines Backend.hyperscan flags pats =
      some { db := some (spec_database flags pats),
             scratch := some { db := spec_database flags pats },
             hs_pats := pats, hs_ids := List.range' 0 pats.length,
             hs_flags := List.replicate pats.length (hs_flag_word flags),
             t := none, pats := [], compiled := true, cnt := pats.length, flags := flags } := by
  have hfind : (List.take pats.length pats).findIdx? (fun e => !literal_only e) = none := by
    rw [List.findIdx?_eq_none_iff]
    intro x hx
    rw [List.take_of_length_le (Nat.le_refl _)] at hx
    simp [hlit x hx]
  have hpos : pats.length ≠ 0 := fun h => hne (List.length_eq_zero.1 h)
  simp only [build]
  rw [add_patterns_hyperscan pats _ rfl (by simpa [rspamd_multipattern_create] using hN)]
  simp only [rspamd_multipattern_compile, rspamd_multipattern_create, spec_engines,
    spec_hs_compile_multi, spec_hs_alloc_scratch, List.nil_append, Nat.zero_add, hfind, hpos,
    if_false]
  simp [List.take_of_length_le, HS_SUCCESS, spec_database]

theorem trie_patterns_build (pats : List CStr) :
    trie_patterns { strv := pats.map (fun p => { ptr := p, len := p.length }),
                    nstrs := pats.length } = pats := by
  simp only [trie_patterns]
  rw [List.take_of_length_le (by simp)]
  simp [Function.comp_def]

theorem occurs_at_pos (cl : Bool) (p text : List Char) (e : Nat) (hne : p ≠ [])
    (h : occurs_at cl p text e = true) : 0 < e := by
  obtain ⟨h1, h2⟩ := (occurs_at_iff cl p text e).1 h
  have hl := h2.length_le
  simp only [List.length_map, List.length_take] at hl
  have := List.length_pos.2 hne
  omega

/-- A pass of the trie from the root reports pattern numbers inside the table
and offsets inside the text. -/
theorem ac_run_bounds (pats : List (List Char)) (rest : List Char) (x : Nat × Nat)
    (h : x ∈ ac_run pats [] 0 rest) : x.1 < pats.length ∧ x.2 ≤ rest.length := by
  have h1 : (x.1, x.2) ∈ ac_run pats (fall_back pats []) ([] : List Char).length rest := h
  obtain ⟨p, hp, -, -, h2, -⟩ := (mem_ac_run pats rest [] x.1 x.2).1 h1
  refine ⟨?_, by simpa using h2⟩
  by_contra hcon
  rw [List.getElem?_eq_none (by omega)] at hp
  cases hp

/-- The match events of the modelled trie on a set built from `pats`, for
pattern numbers and offsets in the range of `gint`. -/
theorem mem_spec_acism_lookup (pats : List CStr) (text : List Char) (len : Nat) (caseless : Nat)
    (x : Int × Int) (hN : pats.length ≤ 2147483648) (hlen : len < 2147483648) :
    x ∈ spec_acism_lookup
        (some { strv := pats.map (fun p => { ptr := p, len := p.length }),
                nstrs := pats.length }) text len 0 caseless ↔
      ∃ (i e : Nat) (p : List Char), x = ((i : Int), (e : Int)) ∧ pats[i]? = some p ∧ p ≠ [] ∧
        occurs_at (decide (caseless ≠ 0)) p (text.take len) e = true := by
  have htl : (text.take len).length ≤ len := List.length_take_le len text
  simp only [spec_acism_lookup, trie_patterns_build, List.mem_map]
  constructor
  · rintro ⟨⟨i, e⟩, hm, rfl⟩
    obtain ⟨hi, he⟩ := ac_run_bounds _ _ _ hm
    simp only [List.length_map] at hi he
    have := (mem_ac_run (pats.map (List.map (fold_case (decide (caseless ≠ 0))))) _ [] i e).1 hm
    obtain ⟨q, hq, hne, -, h2, h3⟩ := this
    simp only [List.getElem?_map, Option.map_eq_some'] at hq
    obtain ⟨p, hp, rfl⟩ := hq
    refine ⟨i, e, p, ?_, hp, by simpa using hne, ?_⟩
    · rw [gint_of_nat i (by omega), gint_of_nat e (by omega)]
    · rw [occurs_at_iff]
      simp only [List.length_nil, Nat.zero_add, List.length_map, List.nil_append,
        ← List.map_take] at h2 h3
      exact ⟨h2, h3⟩
  · rintro ⟨i, e, p, rfl, hp, hne, hocc⟩
    have hpos := occurs_at_pos _ p _ e hne hocc
    obtain ⟨h1, h2⟩ := (occurs_at_iff _ p _ e).1 hocc
    have hi : i < pats.length := by
      by_contra hcon
      rw [List.getElem?_eq_none (by omega)] at hp
      cases hp
    refine ⟨(i, e), ?_, by rw [gint_of_nat i (by omega), gint_of_nat e (by omega)]⟩
    apply (mem_ac_run (pats.map (List.map (fold_case (decide (caseless ≠ 0))))) _ [] i e).2
    refine ⟨p.map (fold_case (decide (caseless ≠ 0))), by simp [hp], by simpa using hne,
      by simpa using hpos, by simpa using h1, ?_⟩
    simp only [List.nil_append, ← List.map_take]
    exact h2

theorem spec_acism_lookup_nodup (pats : List CStr) (text : List Char) (len : Nat)
    (caseless : Nat) (hN : pats.length ≤ 2147483648) (hlen : len < 2147483648) :
    (spec_acism_lookup
      (some { strv := pats.map (fun p => { ptr := p, len := p.length }),
              nstrs := pats.length }) text len 0 caseless).Nodup := by
  have htl : (text.take len).length ≤ len := List.length_take_le len text
  simp only [spec_acism_lookup, trie_patterns_build]
  refine List.Nodup.map_on (fun a ha b hb hab => ?_) (ac_run_nodup _ _ _ _)
  obtain ⟨ha1, ha2⟩ := ac_run_bounds _ _ _ ha
  obtain ⟨hb1, hb2⟩ := ac_run_bounds _ _ _ hb
  simp only [List.length_map] at ha1 ha2 hb1 hb2
  rw [gint_of_nat a.1 (by omega), gint_of_nat a.2 (by omega), gint_of_nat b.1 (by omega),
    gint_of_nat b.2 (by omega)] at hab
  simp only [Prod.mk.injEq, Nat.cast_inj] at hab
  exact Prod.ext hab.1 hab.2

theorem mem_rows (w : Nat) (ps : List CStr) (s : Nat) (row : hs_row) :
    row ∈ List.zipWith (fun (e : List Char) (fi : Nat × Nat) =>
          ({ expr := e, caseless := decide (fi.1 &&& HS_FLAG_CASELESS ≠ 0), id := fi.2 } : hs_row))
        ps (List.zip (List.replicate ps.length w) (List.range' s ps.length)) ↔
      ∃ k p, ps[k]? = some p ∧
        row = { expr := p, caseless := decide (w &&& HS_FLAG_CASELESS ≠ 0), id := s + k } := by
  induction ps generalizing s with
  | nil => simp
  | cons q qs ih =>
    simp only [List.length_cons, List.replicate_succ, List.range'_succ, List.zip_cons_cons,
      List.zipWith_cons_cons, List.mem_cons, ih]
    constructor
    · rintro (h | ⟨k, p, hk, h⟩)
      · exact ⟨0, q, by simp, by simpa using h⟩
      · exact ⟨k + 1, p, by simpa using hk, by rw [h]; congr 1; omega⟩
    · rintro ⟨k, p, hk, h⟩
      cases k with
      | zero =>
        simp only [List.getElem?_cons_zero, Option.some.injEq] at hk
        subst hk
        exact Or.inl (by simpa using h)
      | succ k =>
        simp only [List.getElem?_cons_succ] at hk
        exact Or.inr ⟨k, p, hk, by rw [h]; congr 1; omega⟩

theorem rows_ids (w : Nat) (ps : List CStr) (s : Nat) :
    (List.zipWith (fun (e : List Char) (fi : Nat × Nat) =>
          ({ expr := e, caseless := decide (fi.1 &&& HS_FLAG_CASELESS ≠ 0), id := fi.2 } : hs_row))
        ps (List.zip (List.replicate ps.length w) (List.range' s ps.length))).map
      (fun r => r.id) = List.range' s ps.length := by
  induction ps generalizing s with
  | nil => simp
  | cons q qs ih =>
    simp only [List.length_cons, List.replicate_succ, List.range'_succ, List.zip_cons_cons,
      List.zipWith_cons_cons, List.map_cons, ih]

theorem hs_flag_word_caseless (flags : Nat) :
    (hs_flag_word flags &&& HS_FLAG_CASELESS ≠ 0) ↔
      (flags &&& RSPAMD_MULTIPATTERN_ICASE ≠ 0) := by
  simp only [hs_flag_word]
  by_cases h1 : flags &&& RSPAMD_MULTIPATTERN_ICASE ≠ 0 <;>
    by_cases h2 : flags &&& RSPAMD_MULTIPATTERN_UTF8 ≠ 0 <;>
    simp only [h1, h2, if_true, if_false, ne_eq, not_true_eq_false, not_false_eq_true] <;> decide

/-- The match events of the modelled regular-expression automaton on a
database built from `pats` with one flag word for all. -/
theorem mem_spec_hs_scan (flags : Nat) (pats : List CStr) (text : List Char) (len : Nat)
    (x : Int × Int) :
    x ∈ (hs_run ((hs_rows (spec_database flags pats)).map fun r => (r, [])) 0 (text.take len)).map hs_pair ↔
      ∃ (i e : Nat) (p : List Char), x = ((i : Int), (e : Int)) ∧ pats[i]? = some p ∧ p ≠ [] ∧
        occurs_at (decide (flags &&& RSPAMD_MULTIPATTERN_ICASE ≠ 0)) p (text.take len) e =
          true := by
  have hcl : decide (hs_flag_word flags &&& HS_FLAG_CASELESS ≠ 0) =
      decide (flags &&& RSPAMD_MULTIPATTERN_ICASE ≠ 0) := by
    simp only [decide_eq_decide]
    exact hs_flag_word_caseless flags
  have hrun := fun m => mem_hs_run (hs_rows (spec_database flags pats)) (text.take len) [] m
  simp only [List.length_nil, Nat.zero_add, List.nil_append] at hrun
  simp only [List.mem_map]
  constructor
  · rintro ⟨m, hm, rfl⟩
    obtain ⟨row, hrow, e, h1, h2, hne, hs, rfl⟩ := (hrun m).1 hm
    obtain ⟨k, p, hk, rfl⟩ := (mem_rows (hs_flag_word flags) pats 0 row).1 hrow
    simp only [Nat.zero_add, hcl] at hs hne ⊢
    exact ⟨k, e, p, rfl, hk, hne, (occurs_at_iff _ p _ e).2 ⟨h2, hs⟩⟩
  · rintro ⟨i, e, p, rfl, hp, hne, hocc⟩
    have hpos := occurs_at_pos _ p _ e hne hocc
    obtain ⟨h1, h2⟩ := (occurs_at_iff _ p _ e).1 hocc
    refine ⟨{ id := i, from_ := 0, to_ := e, flags := 0 }, (hrun _).2 ?_, rfl⟩
    refine ⟨{ expr := p, caseless := decide (hs_flag_word flags &&& HS_FLAG_CASELESS ≠ 0),
              id := i }, (mem_rows (hs_flag_word flags) pats 0 _).2 ⟨i, p, hp, by simp⟩, e, hpos,
      h1, hne, ?_, rfl⟩
    simp only [hcl]
    exact h2

theorem spec_hs_scan_nodup (flags : Nat) (pats : List CStr) (text : List Char) (len : Nat) :
    ((hs_run ((hs_rows (spec_database flags pats)).map fun r => (r, [])) 0 (text.take len)).map hs_pair).Nodup := by
  apply hs_run_pairs_nodup
  simp only [List.map_map, Function.comp_def]
  have := rows_ids (hs_flag_word flags) pats 0
  simp only [hs_rows, spec_database]
  rw [this]
  exact List.nodup_range' _ _

/-- The example scenarios of section 8 of the spec, run through the modelled
engines in both builds: case-insensitive `spam`, `viagra`, `lottery`. -/
theorem spec_scenarios (b : Backend) :
    (build spec_engines b 1 ["spam".toList, "viagra".toList, "lottery".toList]).bind
        (fun mp => scan_pairs spec_engines b mp "You won the LOTTERY! Buy Viagra now".toList
          cb_continue) = some ([(2, 19), (1, 31)], 0, some 2) ∧
    (build spec_engines b 1 ["spam".toList, "viagra".toList, "lottery".toList]).bind
        (fun mp => scan_pairs spec_engines b mp "hello world".toList cb_continue) =
      some ([], 0, some 0) := by
  cases b <;> decide

/-- Under the modelled engines, a set built from `pats` compiles (for the
regular-expression engine: when there is a pattern and the patterns are
literals), and its match events on a buffer are, without repetition, the
occurrences of its non-empty patterns; the pattern numbers and the length of
the buffer are in the range of `gint`. -/
theorem spec_events (b : Backend) (flags : Nat) (pats : List CStr) (text : List Char)
    (len : Nat) (hN : pats.length ≤ 2147483648) (hlen : len < 2147483648)
    (hset : b = Backend.hyperscan → pats ≠ [])
    (hlit : b = Backend.hyperscan → ∀ p ∈ pats, literal_only p = true) :
    ∃ mp evs, build spec_engines b flags pats = some mp ∧ mp.compiled = true ∧
      match_events spec_engines b mp text len = Except.ok evs ∧ evs.Nodup ∧
      ∀ x, x ∈ evs ↔
        ∃ (i e : Nat) (p : List Char), x = ((i : Int), (e : Int)) ∧ pats[i]? = some p ∧
          p ≠ [] ∧ occurs_at (flags_caseless flags) p (text.take len) e = true := by
  have hmod : len % 4294967296 = len := Nat.mod_eq_of_lt (by omega)
  cases b with
  | acism =>
    refine ⟨_, _, build_acism flags pats (by omega), rfl, rfl, ?_, fun x => ?_⟩
    · exact spec_acism_lookup_nodup pats text len _ hN hlen
    · exact mem_spec_acism_lookup pats text len _ x hN hlen
  | hyperscan =>
    refine ⟨_, (hs_run ((hs_rows (spec_database flags pats)).map fun r => (r, [])) 0
        (text.take len)).map hs_pair,
      build_hyperscan flags pats (by omega) (hset rfl) (hlit rfl), rfl, ?_, ?_, fun x => ?_⟩
    · show Except.ok ((hs_run ((hs_rows (spec_database flags pats)).map fun r => (r, [])) 0
        (text.take (len % 4294967296))).map hs_pair) = _
      rw [hmod]
    · exact spec_hs_scan_nodup flags pats text len
    · exact mem_spec_hs_scan flags pats text len x

theorem pair_zipWith (mp : rspamd_multipattern) (in_ : List Char) (len ud : Nat)
    (es : List (Int × Int)) (rs : List Int) (h : es.length = rs.length) :
    (List.zipWith (fun e r => call_of mp in_ len ud r e) es rs).map CbCall.pair = es := by
  induction es generalizing rs with
  | nil => simp
  | cons e es ih =>
    cases rs with
    | nil => simp at h
    | cons r rs =>
      simp only [List.zipWith_cons_cons, List.map_cons, List.cons.injEq]
      exact ⟨rfl, ih rs (by simpa using h)⟩

theorem answers_zero {W : Type} (cb : rspamd_multipattern_cb_t W)
    (hcb : ∀ mp s t tx l u w, (cb mp s t tx l u w).1 = 0) (mp : rspamd_multipattern)
    (in_ : List Char) (len ud : Nat) (evs : List (Int × Int)) (w : W) :
    ∀ r ∈ answers cb mp in_ len ud evs w, r = 0 := by
  induction evs generalizing w with
  | nil => simp [answers]
  | cons e es ih =>
    intro r hr
    simp only [answers, List.mem_cons] at hr
    rcases hr with h | h
    · rw [h]; exact hcb _ _ _ _ _ _ _
    · exact ih _ r h

/-- A scan with a callback that never stops hands every match event to the
callback, in order. -/
theorem lookup_all {W : Type} (E : Engines) (b : Backend) (mp : rspamd_multipattern)
    (in_ : List Char) (len : Nat) (cb : rspamd_multipattern_cb_t W) (ud : Nat) (pnfound : Bool)
    (w : W) (evs : List (Int × Int)) (hc : mp.compiled = true)
    (hev : match_events E b mp in_ len = Except.ok evs)
    (hcb : ∀ mp s t tx l u w, (cb mp s t tx l u w).1 = 0) :
    ∃ res, rspamd_multipattern_lookup E b mp in_ len (traced cb) ud pnfound (w, []) = some res ∧
      res.ret = 0 ∧
      res.pnfound = (if pnfound then some (evs.length % 4294967296) else none) ∧
      res.world.2.map CbCall.pair = evs := by
  obtain ⟨hcount, hvalue⟩ := stop_of_zero _ (answers_zero cb hcb mp in_ len ud evs w)
  rw [answers_length] at hcount
  obtain ⟨res, hres, h1, h2, h3, -, -⟩ := lookup_traced E b mp in_ len cb ud pnfound w evs hc hev
  refine ⟨res, hres, by rw [h1, hvalue], by rw [h2, hcount], ?_⟩
  rw [h3, hcount, pair_zipWith _ _ _ _ _ _ (take_stop_lengths cb mp in_ len ud evs w evs.length)]
  simp

theorem spec_acism_lookup_range (psp : Option ac_trie_t) (text : List Char) (len : Nat)
    (st : Int) (caseless : Nat) (x : Int × Int)
    (h : x ∈ spec_acism_lookup psp text len st caseless) : x.2 < 2147483648 := by
  cases psp with
  | none => simp [spec_acism_lookup] at h
  | some t =>
    simp only [spec_acism_lookup, List.mem_map] at h
    obtain ⟨m, -, rfl⟩ := h
    exact (gint_range _).2

/-- In the trie build every end offset that reaches the callback is a value of
`int textpos`. -/
theorem trie_scan_range {W : Type} (mp : rspamd_multipattern) (text : List Char) (len : Nat)
    (cb : rspamd_multipattern_cb_t W) (ud : Nat) (pnfound : Bool) (w : W)
    (hc : mp.compiled = true) (hcb : ∀ mp s t tx l u w, (cb mp s t tx l u w).1 = 0) :
    ∃ res, rspamd_multipattern_lookup spec_engines Backend.acism mp text len (traced cb) ud
        pnfound (w, []) = some res ∧
      res.ret = 0 ∧ ∀ x ∈ res.world.2.map CbCall.pair, x.2 < 2147483648 := by
  obtain ⟨res, hres, hret, -, hlog⟩ :=
    lookup_all spec_engines Backend.acism mp text len cb ud pnfound w
      (spec_acism_lookup mp.t text len 0 (mp.flags &&& RSPAMD_MULTIPATTERN_ICASE)) hc rfl hcb
  refine ⟨res, hres, hret, fun x hx => ?_⟩
  rw [hlog] at hx
  exact spec_acism_lookup_range mp.t text len 0 _ x hx

/-- A pattern at the end of a buffer occurs there. -/
theorem occurs_at_end (cl : Bool) (n k : Nat) (c : Char) (p : List Char) (hk : p.length = k) :
    occurs_at cl p ((List.replicate n c ++ p).take (n + k)) (n + k) = true := by
  have hfull : (List.replicate n c ++ p).take (n + k) = List.replicate n c ++ p :=
    List.take_of_length_le (by simp [hk])
  rw [occurs_at_iff, hfull, hfull]
  refine ⟨by simp [hk], ?_⟩
  rw [List.map_append]
  exact List.suffix_append _ _

/-- C5, as the code has it, for the engines as the spec describes them.  For a
set built from non-empty literal patterns (at most `2 ^ 31`, so that every
pattern number is an `int`; at least one and free of metacharacters in the
regular-expression build) and compiled, and a buffer of fewer than `2 ^ 31`
bytes, a scan with a callback that always returns `0` returns `0` and hands
the callback no pair `(pattern id, end offset)` twice; every occurrence of
every pattern is handed over, with the insertion index of the pattern and the
offset one past its last byte; and every pair handed over is such an
occurrence.  An occurrence is taken in the comparison mode of the set: byte
for byte unless `CASE_INSENSITIVE` is set. -/
theorem C5_literal_matching {W : Type} (b : Backend) (flags : Nat) (pats : List CStr)
    (text : List Char) (len : Nat) (cb : rspamd_multipattern_cb_t W) (ud : Nat)
    (pnfound : Bool) (w : W)
    (hN : pats.length ≤ 2147483648)
    (hlen : len < 2147483648)
    (hne : ∀ p ∈ pats, p ≠ [])
    (hset : b = Backend.hyperscan → pats ≠ [])
    (hlit : b = Backend.hyperscan → ∀ p ∈ pats, literal_only p = true)
    (hcb : ∀ mp s t tx l u w, (cb mp s t tx l u w).1 = 0) :
    ∃ mp res, build spec_engines b flags pats = some mp ∧
      rspamd_multipattern_lookup spec_engines b mp text len (traced cb) ud pnfound (w, []) =
        some res ∧
      res.ret = 0 ∧
      (res.world.2.map CbCall.pair).Nodup ∧
      (∀ (i e : Nat) (p : List Char), pats[i]? = some p →
        occurs_at (flags_caseless flags) p (text.take len) e = true →
        ((i : Int), (e : Int)) ∈ res.world.2.map CbCall.pair) ∧
      (∀ x ∈ res.world.2.map CbCall.pair,
        ∃ (i e : Nat) (p : List Char), x = ((i : Int), (e : Int)) ∧ pats[i]? = some p ∧
          occurs_at (flags_caseless flags) p (text.take len) e = true) := by
  obtain ⟨mp, evs, hbuild, hc, hev, hnd, hmem⟩ :=
    spec_events b flags pats text len hN hlen hset hlit
  obtain ⟨res, hres, hret, -, hlog⟩ :=
    lookup_all spec_engines b mp text len cb ud pnfound w evs hc hev hcb
  refine ⟨mp, res, hbuild, hres, hret, by rw [hlog]; exact hnd, fun i e p hp hocc => ?_,
    fun x hx => ?_⟩
  · rw [hlog, hmem]
    exact ⟨i, e, p, rfl, hp, hne p (List.mem_iff_getElem?.2 ⟨i, hp⟩), hocc⟩
  · rw [hlog, hmem] at hx
    obtain ⟨i, e, p, hxe, hp, -, hocc⟩ := hx
    exact ⟨i, e, p, hxe, hp, hocc⟩

/-- Witness of C5: the patterns `ab` and `abc` on the buffer `xabcx` in the
trie build; the scan yields exactly the matches `(0, 3)` and `(1, 4)`, in
either build. -/
theorem C5_literal_matching_witness :
    (∃ mp res, build spec_engines Backend.acism 0 ["ab".toList, "abc".toList] = some mp ∧
      rspamd_multipattern_lookup spec_engines Backend.acism mp "xabcx".toList 5
        (traced cb_continue) 0 true ((), []) = some res ∧
      res.ret = 0 ∧
      (res.world.2.map CbCall.pair).Nodup ∧
      (∀ (i e : Nat) (p : List Char), ["ab".toList, "abc".toList][i]? = some p →
        occurs_at (flags_caseless 0) p ("xabcx".toList.take 5) e = true →
        ((i : Int), (e : Int)) ∈ res.world.2.map CbCall.pair) ∧
      (∀ x ∈ res.world.2.map CbCall.pair,
        ∃ (i e : Nat) (p : List Char), x = ((i : Int), (e : Int)) ∧
          ["ab".toList, "abc".toList][i]? = some p ∧
          occurs_at (flags_caseless 0) p ("xabcx".toList.take 5) e = true)) ∧
    (build spec_engines Backend.acism 0 ["ab".toList, "abc".toList]).bind
        (fun mp => scan_pairs spec_engines Backend.acism mp "xabcx".toList cb_continue) =
      some ([(0, 3), (1, 4)], 0, some 2) ∧
    (build spec_engines Backend.hyperscan 0 ["ab".toList, "abc".toList]).bind
        (fun mp => scan_pairs spec_engines Backend.hyperscan mp "xabcx".toList cb_continue) =
      some ([(0, 3), (1, 4)], 0, some 2) :=
  ⟨C5_literal_matching Backend.acism 0 ["ab".toList, "abc".toList] "xabcx".toList 5
      cb_continue 0 true () (by decide) (by decide) (by decide) (fun h => by cases h)
      (by decide) (fun _ _ _ _ _ _ _ => rfl),
    by decide, by decide⟩

/-- Counterexample to C5 as stated: a buffer of `2 ^ 31` bytes that ends in
`abc`, scanned in the trie build with the set of `bc` and `abc` and a callback
that always returns `0`.  The pattern `abc`, of id `1`, occurs with the end
offset `2 ^ 31`; the bridge receives the offset as `int textpos`, which has no
such value, and the pair `(1, 2 ^ 31)` is not among those handed to the
callback. -/
theorem C5_counterexample :
    build spec_engines Backend.acism 0 ["bc".toList, "abc".toList] = some example_trie_set ∧
    occurs_at (flags_caseless 0) "abc".toList
      ((List.replicate 2147483645 'x' ++ "abc".toList).take 2147483648)
      2147483648 = true ∧
    ∃ res,
      rspamd_multipattern_lookup spec_engines Backend.acism example_trie_set
        (List.replicate 2147483645 'x' ++ "abc".toList) 2147483648
        (traced cb_continue) 0 true ((), []) = some res ∧
      res.ret = 0 ∧
      ((1 : Int), (2147483648 : Int)) ∉ res.world.2.map CbCall.pair :=
  ⟨example_trie_set_built,
    occurs_at_end (flags_caseless 0) 2147483645 3 'x' "abc".toList rfl,
    let ⟨res, h1, h2, h3⟩ := trie_scan_range example_trie_set
      (List.replicate 2147483645 'x' ++ "abc".toList) 2147483648 cb_continue 0
      true () rfl (fun _ _ _ _ _ _ _ => rfl)
    ⟨res, h1, h2, fun hmem => absurd (h3 _ hmem) (by decide)⟩⟩

/-- C10 at its failing input.  In the Hyperscan build, with the platform call
successful: when the backend rejects the tables of a set fresh from
`rspamd_multipattern_create`, to which no pattern was added, the expression
index of the error, whatever it is, lies outside the empty pattern table;
`rspamd_multipattern_compile` reads `hs_pats` outside the array before it
sets an error, and does not return a failure. -/
theorem C10_empty_set_rejection (E : Engines) (flags : Nat) (err : Bool)
    (e : hs_compile_error_t)
    (hplt : E.hs_populate_platform = HS_SUCCESS)
    (hrej : E.hs_compile_multi [] [] [] 0 HS_MODE_BLOCK = Except.error e) :
    g_array_index (rspamd_multipattern_create flags).hs_pats e.expression = none ∧
      rspamd_multipattern_compile E Backend.hyperscan (rspamd_multipattern_create flags) err =
        none := by
  have hidx : g_array_index (rspamd_multipattern_create flags).hs_pats e.expression = none := by
    simp [g_array_index, rspamd_multipattern_create]
  refine ⟨hidx, ?_⟩
  have hrej1 : E.hs_compile_multi (rspamd_multipattern_create flags).hs_pats
      (rspamd_multipattern_create flags).hs_flags (rspamd_multipattern_create flags).hs_ids
      (rspamd_multipattern_create flags).cnt HS_MODE_BLOCK = Except.error e := hrej
  have hc : (rspamd_multipattern_create flags).compiled = false := rfl
  simp only [rspamd_multipattern_compile, hc, hplt, hrej1, hidx]
  simp

/-- Witness of C10 at its failing input: an engine that refuses the empty
table with index `-1`. -/
theorem C10_empty_set_rejection_witness :
    g_array_index (rspamd_multipattern_create 0).hs_pats
        (hs_compile_error_t.mk "Invalid parameter: elements is zero".toList (-1)).expression =
        none ∧
      rspamd_multipattern_compile strict_engines Backend.hyperscan (rspamd_multipattern_create 0)
        true = none :=
  C10_empty_set_rejection strict_engines 0 true
    { message := "Invalid parameter: elements is zero".toList, expression := -1 }
    (by decide) rfl

/-! ### The set after a successful compile -/

theorem add_pattern_flags (b : Backend) (mp mp1 : rspamd_multipattern) (p : Option CStr)
    (h : rspamd_multipattern_add_pattern b mp p = some mp1) : mp1.flags = mp.flags := by
  cases p with
  | none => simp [rspamd_multipattern_add_pattern] at h
  | some p =>
    cases hc : mp.compiled with
    | true => simp [rspamd_multipattern_add_pattern, hc] at h
    | false =>
      cases b with
      | hyperscan =>
        rw [add_pattern_hyperscan mp p hc] at h
        simp only [Option.some.injEq] at h
        rw [← h]
      | acism =>
        rw [add_pattern_acism mp p hc] at h
        simp only [Option.some.injEq] at h
        rw [← h]

/-- What `rspamd_multipattern_compile` leaves of a set when it returns: the
count, the entries with their ids and flag words, and the flags are those of
the set before; the set is compiled exactly when `TRUE` was returned. -/
theorem compile_keeps (E : Engines) (b : Backend) (mp : rspamd_multipattern) (err : Bool)
    (r : CompileResult) (h : rspamd_multipattern_compile E b mp err = some r) :
    r.mp.cnt = mp.cnt ∧ r.mp.hs_pats = mp.hs_pats ∧ r.mp.hs_ids = mp.hs_ids ∧
      r.mp.hs_flags = mp.hs_flags ∧ r.mp.pats = mp.pats ∧ r.mp.flags = mp.flags ∧
      r.mp.compiled = r.ret := by
  simp only [rspamd_multipattern_compile] at h
  split at h
  · simp at h
  · rename_i hc
    cases b with
    | acism =>
      simp only [Option.some.injEq] at h
      rw [← h]
      exact ⟨rfl, rfl, rfl, rfl, rfl, rfl, rfl⟩
    | hyperscan =>
      simp only at h
      split at h
      · split at h
        · split at h
          · simp at h
          · simp only [Option.some.injEq] at h
            rw [← h]
            exact ⟨rfl, rfl, rfl, rfl, rfl, rfl, by simpa using hc⟩
        · split at h
          · simp at h
          · simp only [Option.some.injEq] at h
            rw [← h]
            exact ⟨rfl, rfl, rfl, rfl, rfl, rfl, rfl⟩
      · simp at h

theorem lookup_keeps {W : Type} (E : Engines) (b : Backend) (mp : rspamd_multipattern)
    (in_ : List Char) (len : Nat) (cb : rspamd_multipattern_cb_t W) (ud : Nat) (pnfound : Bool)
    (w : W) (res : LookupResult W)
    (h : rspamd_multipattern_lookup E b mp in_ len cb ud pnfound w = some res) :
    res.mp = mp ∧ mp.compiled = true := by
  simp only [rspamd_multipattern_lookup] at h
  split at h
  · rename_i hc
    simp only [Option.some.injEq] at h
    rw [← h]
    exact ⟨rfl, hc⟩
  · simp at h

theorem lookup_returns {W : Type} (E : Engines) (b : Backend) (mp : rspamd_multipattern)
    (in_ : List Char) (len : Nat) (cb : rspamd_multipattern_cb_t W) (ud : Nat) (pnfound : Bool)
    (w : W) (hc : mp.compiled = true) :
    ∃ res, rspamd_multipattern_lookup E b mp in_ len cb ud pnfound w = some res ∧
      res.mp = mp := by
  simp only [rspamd_multipattern_lookup, hc, if_true]
  exact ⟨_, rfl, rfl⟩

theorem compile_compiled (E : Engines) (b : Backend) (mp : rspamd_multipattern) (err : Bool)
    (hc : mp.compiled = true) : rspamd_multipattern_compile E b mp err = none := by
  simp [rspamd_multipattern_compile, hc]

theorem add_pattern_compiled (b : Backend) (mp : rspamd_multipattern) (p : Option CStr)
    (hc : mp.compiled = true) : rspamd_multipattern_add_pattern b mp p = none := by
  cases p with
  | none => rfl
  | some p => simp [rspamd_multipattern_add_pattern, hc]

theorem apply_op_flags (E : Engines) (b : Backend) (mp mp1 : rspamd_multipattern) (op : SetOp)
    (h : apply_op E b mp op = some mp1) : mp1.flags = mp.flags := by
  cases op with
  | add_pattern p => exact add_pattern_flags b mp mp1 p h
  | compile err =>
    simp only [apply_op] at h
    split at h
    · simp at h
    · rename_i r hr
      simp only [Option.some.injEq] at h
      rw [← h]
      exact (compile_keeps E b mp err r hr).2.2.2.2.2.1
  | lookup W in_ len cb ud pnfound w =>
    simp only [apply_op] at h
    split at h
    · simp at h
    · rename_i res hres
      simp only [Option.some.injEq] at h
      rw [← h, (lookup_keeps E b mp in_ len cb ud pnfound w res hres).1]

theorem apply_ops_flags (E : Engines) (b : Backend) (ops : List SetOp)
    (mp mp1 : rspamd_multipattern) (h : apply_ops E b mp ops = some mp1) :
    mp1.flags = mp.flags := by
  induction ops generalizing mp with
  | nil =>
    simp only [apply_ops, Option.some.injEq] at h
    rw [h]
  | cons op ops ih =>
    simp only [apply_ops] at h
    split at h
    · simp at h
    · rename_i mp2 hop
      rw [ih mp2 h, apply_op_flags E b mp mp2 op hop]

/-- On a compiled set only a scan returns, and it returns the set as it
was. -/
theorem apply_op_compiled (E : Engines) (b : Backend) (mp mp1 : rspamd_multipattern)
    (op : SetOp) (hc : mp.compiled = true) (h : apply_op E b mp op = some mp1) :
    mp1 = mp ∧ op.is_lookup = true := by
  cases op with
  | add_pattern p =>
    simp only [apply_op, add_pattern_compiled b mp p hc] at h
    cases h
  | compile err =>
    simp [apply_op, compile_compiled E b mp err hc] at h
  | lookup W in_ len cb ud pnfound w =>
    simp only [apply_op] at h
    split at h
    · simp at h
    · rename_i res hres
      simp only [Option.some.injEq] at h
      rw [← h]
      exact ⟨(lookup_keeps E b mp in_ len cb ud pnfound w res hres).1, rfl⟩

theorem apply_ops_compiled (E : Engines) (b : Backend) (ops : List SetOp)
    (mp mp1 : rspamd_multipattern) (hc : mp.compiled = true)
    (h : apply_ops E b mp ops = some mp1) :
    mp1 = mp ∧ ∀ op ∈ ops, op.is_lookup = true := by
  induction ops with
  | nil =>
    simp only [apply_ops, Option.some.injEq] at h
    exact ⟨h.symm, by simp⟩
  | cons op ops ih =>
    simp only [apply_ops] at h
    split at h
    · simp at h
    · rename_i mp2 hop
      obtain ⟨h1, h2⟩ := apply_op_compiled E b mp mp2 op hc hop
      subst h1
      obtain ⟨h3, h4⟩ := ih h
      refine ⟨h3, fun o ho => ?_⟩
      rcases List.mem_cons.1 ho with h5 | h5
      · rw [h5]; exact h2
      · exact h4 o h5

theorem apply_ops_lookups (E : Engines) (b : Backend) (ops : List SetOp)
    (mp : rspamd_multipattern) (hc : mp.compiled = true)
    (hops : ∀ op ∈ ops, op.is_lookup = true) : apply_ops E b mp ops = some mp := by
  induction ops with
  | nil => rfl
  | cons op ops ih =>
    have hop := hops op (by simp)
    cases op with
    | add_pattern p => simp [SetOp.is_lookup] at hop
    | compile err => simp [SetOp.is_lookup] at hop
    | lookup W in_ len cb ud pnfound w =>
      obtain ⟨res, hres, hmp⟩ := lookup_returns E b mp in_ len cb ud pnfound w hc
      simp only [apply_ops, apply_op, hres, hmp]
      exact ih (fun o ho => hops o (by simp [ho]))

/-- C11 (post-compile immutability).  The flags of a set are the same after
any sequence of operations that runs without abort.  When
`rspamd_multipattern_compile` has returned `TRUE`: the set is compiled, with
the count, the entries, their ids and flag words and the flags it had before;
from then on `add_pattern` and `compile` abort, every scan, with any buffer
and callback, returns and hands the set back unchanged; so after any sequence
of later operations that runs without abort the set is the one left by the
compile (same count, entries, ids, flags, compiled flag), that sequence holds
scans only, and every sequence of scans runs to its end. -/
theorem C11_post_compile_immutability (E : Engines) (b : Backend) (mp0 : rspamd_multipattern)
    (err : Bool) (r : CompileResult)
    (hcomp : rspamd_multipattern_compile E b mp0 err = some r) (hret : r.ret = true) :
    (∀ (mp mp1 : rspamd_multipattern) (ops : List SetOp),
      apply_ops E b mp ops = some mp1 → mp1.flags = mp.flags) ∧
    (r.mp.compiled = true ∧ r.mp.cnt = mp0.cnt ∧ r.mp.hs_pats = mp0.hs_pats ∧
      r.mp.hs_ids = mp0.hs_ids ∧ r.mp.hs_flags = mp0.hs_flags ∧ r.mp.pats = mp0.pats ∧
      r.mp.flags = mp0.flags) ∧
    (∀ p, rspamd_multipattern_add_pattern b r.mp p = none) ∧
    (∀ err1, rspamd_multipattern_compile E b r.mp err1 = none) ∧
    (∀ (W : Type) (in_ : List Char) (len : Nat) (cb : rspamd_multipattern_cb_t W) (ud : Nat)
        (pnfound : Bool) (w : W),
      ∃ res, rspamd_multipattern_lookup E b r.mp in_ len cb ud pnfound w = some res ∧
        res.mp = r.mp) ∧
    (∀ (ops : List SetOp) (mp : rspamd_multipattern), apply_ops E b r.mp ops = some mp →
      mp = r.mp ∧ ∀ op ∈ ops, op.is_lookup = true) ∧
    (∀ ops : List SetOp, (∀ op ∈ ops, op.is_lookup = true) →
      apply_ops E b r.mp ops = some r.mp) := by
  obtain ⟨h1, h2, h3, h4, h5, h6, h7⟩ := compile_keeps E b mp0 err r hcomp
  have hc : r.mp.compiled = true := by rw [h7, hret]
  exact ⟨fun mp mp1 ops h => apply_ops_flags E b ops mp mp1 h,
    ⟨hc, h1, h2, h3, h4, h5, h6⟩,
    fun p => add_pattern_compiled b r.mp p hc,
    fun err1 => compile_compiled E b r.mp err1 hc,
    fun W in_ len cb ud pnfound w => lookup_returns E b r.mp in_ len cb ud pnfound w hc,
    fun ops mp h => apply_ops_compiled E b ops r.mp mp hc h,
    fun ops hops => apply_ops_lookups E b ops r.mp hc hops⟩

/-- Witness of C11: the trie set of `bc` and `abc` is compiled; afterwards a
pattern and a second compile are refused, and two scans in a row leave the
set as the compile left it. -/
theorem C11_post_compile_immutability_witness :
    (example_trie_set.compiled = true ∧ example_trie_set.cnt = example_trie_set_open.cnt ∧
      example_trie_set.pats = example_trie_set_open.pats ∧
      example_trie_set.flags = example_trie_set_open.flags) ∧
    rspamd_multipattern_add_pattern Backend.acism example_trie_set (some "x".toList) = none ∧
    rspamd_multipattern_compile spec_engines Backend.acism example_trie_set true = none ∧
    apply_ops spec_engines Backend.acism example_trie_set
        [SetOp.lookup Unit "abc".toList 3 cb_stop_id 0 true (),
         SetOp.lookup Unit "xabcx".toList 5 cb_continue 0 false ()] =
      some example_trie_set :=
  have h := C11_post_compile_immutability spec_engines Backend.acism example_trie_set_open true
    { ret := true, mp := example_trie_set, err := none } (by decide) (by decide)
  ⟨⟨h.2.1.1, h.2.1.2.1, h.2.1.2.2.2.2.2.1, h.2.1.2.2.2.2.2.2⟩, h.2.2.1 _, h.2.2.2.1 true,
    h.2.2.2.2.2.2 _ (by
      intro op hop
      simp only [List.mem_cons, List.mem_singleton, List.not_mem_nil, or_false] at hop
      rcases hop with h1 | h1 <;> rw [h1] <;> rfl)⟩

/-! ### The constructor `rspamd_multipattern_create_full` -/

/-- The loop of `rspamd_multipattern_create_full` over an array of non-NULL
strings adds the strings at the indices `i`, ..., `i + todo - 1` in order. -/
theorem create_full_loop_eq_add_patterns (b : Backend) (arr : List CStr) (todo : Nat) :
    ∀ (i : Nat) (mp : rspamd_multipattern), i + todo ≤ arr.length →
      create_full_loop b (arr.map some) todo i mp =
        add_patterns b mp ((arr.drop i).take todo) := by
  induction todo with
  | zero =>
    intro i mp _
    simp [create_full_loop, add_patterns]
  | succ todo ih =>
    intro i mp h
    have hi : i < arr.length := by omega
    have hget : (arr.map some)[i]? = some (some arr[i]) := by
      simp [List.getElem?_eq_getElem, hi]
    rw [List.drop_eq_getElem_cons hi, List.take_succ_cons]
    simp only [create_full_loop, hget, add_patterns]
    cases rspamd_multipattern_add_pattern b mp (some arr[i]) with
    | none => rfl
    | some mp1 => exact ih (i + 1) mp1 (by omega)

/-- C12 (create_full builds the whole set).  For an array of strings, a count
`n > 0` within the array and in the range of `guint`, and any flags,
`rspamd_multipattern_create_full` returns a set that is not compiled, has the
given flags and the count `n`, holds the first `n` strings of the array in
order (in the regex build with the ids `0`, ..., `n - 1`), and is the set that
`rspamd_multipattern_create_sized (n, flags)` followed by `add_pattern` of
these strings in order gives; with the count `0` the call aborts. -/
theorem C12_create_full_builds_set (b : Backend) (arr : List CStr) (n flags : Nat)
    (hn : 0 < n) (hlen : n ≤ arr.length) (hrange : n < 4294967296) :
    (∃ mp, rspamd_multipattern_create_full b (some (arr.map some)) n flags = some mp ∧
      mp.compiled = false ∧ mp.flags = flags ∧ mp.cnt = n ∧
      (match b with
        | Backend.hyperscan =>
          mp.hs_pats = arr.take n ∧ mp.hs_ids = List.range n ∧
            mp.hs_flags = List.replicate n (hs_flag_word flags) ∧ mp.pats = []
        | Backend.acism =>
          mp.pats = (arr.take n).map (fun p => { ptr := p, len := strlen p }) ∧
            mp.hs_pats = [] ∧ mp.hs_ids = [] ∧ mp.hs_flags = []) ∧
      ∃ mp0, rspamd_multipattern_create_sized n flags = some mp0 ∧
        add_patterns b mp0 (arr.take n) = some mp) ∧
    ∀ (patterns : Option (List (Option CStr))) (flags1 : Nat),
      rspamd_multipattern_create_full b patterns 0 flags1 = none := by
  have hl : (arr.take n).length = n := by simp [List.length_take, hlen]
  refine ⟨?_, fun patterns flags1 => by simp [rspamd_multipattern_create_full]⟩
  have hloop := fun mp => create_full_loop_eq_add_patterns b arr n 0 mp (by omega)
  simp only [List.drop_zero] at hloop
  simp only [rspamd_multipattern_create_full, rspamd_multipattern_create_sized, hn, gt_iff_lt,
    if_true, hloop]
  cases b with
  | hyperscan =>
    have hadd := add_patterns_hyperscan (arr.take n) (rspamd_multipattern_create flags) rfl
      (by show 0 + (arr.take n).length < 4294967296; rw [hl]; omega)
    simp only [rspamd_multipattern_create, hl, List.nil_append, Nat.zero_add] at hadd
    refine ⟨_, hadd, rfl, rfl, rfl, ⟨rfl, ?_, rfl, rfl⟩, _, rfl, hadd⟩
    simp only [List.range_eq_range']
  | acism =>
    have hadd := add_patterns_acism (arr.take n) (rspamd_multipattern_create flags) rfl
      (by show 0 + (arr.take n).length < 4294967296; rw [hl]; omega)
    simp only [rspamd_multipattern_create, hl, List.nil_append, Nat.zero_add] at hadd
    exact ⟨_, hadd, rfl, rfl, rfl, ⟨rfl, rfl, rfl, rfl⟩, _, rfl, hadd⟩

/-- Witness of C12: the first two of three strings, in the trie build. -/
theorem C12_create_full_builds_set_witness :
    ∃ mp, rspamd_multipattern_create_full Backend.acism
        (some (["bc".toList, "abc".toList, "zz".toList].map some)) 2 0 = some mp ∧
      mp.compiled = false ∧ mp.flags = 0 ∧ mp.cnt = 2 ∧
      mp.pats = (["bc".toList, "abc".toList, "zz".toList].take 2).map
        (fun p => { ptr := p, len := strlen p }) :=
  let ⟨mp, h1, h2, h3, h4, h5, _⟩ :=
    (C12_create_full_builds_set Backend.acism ["bc".toList, "abc".toList, "zz".toList] 2 0
      (by decide) (by decide) (by decide)).1
  ⟨mp, h1, h2, h3, h4, h5.1⟩

/-! ### The flags of the set and the backend -/

theorem hs_flag_word_utf8 (flags : Nat) :
    (hs_flag_word flags &&& HS_FLAG_UTF8 ≠ 0) ↔
      (flags &&& RSPAMD_MULTIPATTERN_UTF8 ≠ 0) := by
  simp only [hs_flag_word]
  by_cases h1 : flags &&& RSPAMD_MULTIPATTERN_ICASE ≠ 0 <;>
    by_cases h2 : flags &&& RSPAMD_MULTIPATTERN_UTF8 ≠ 0 <;>
    simp only [h1, h2, if_true, if_false, ne_eq, not_true_eq_false, not_false_eq_true] <;> decide

theorem hs_flag_word_mask (flags : Nat) :
    hs_flag_word flags &&& (HS_FLAG_CASELESS ||| HS_FLAG_UTF8) = hs_flag_word flags := by
  simp only [hs_flag_word]
  by_cases h1 : flags &&& RSPAMD_MULTIPATTERN_ICASE ≠ 0 <;>
    by_cases h2 : flags &&& RSPAMD_MULTIPATTERN_UTF8 ≠ 0 <;>
    simp only [h1, h2, if_true, if_false, ne_eq, not_true_eq_false, not_false_eq_true] <;> decide

/-- Adding a pattern keeps one flag word per stored expression, the word of
the flags of the set. -/
theorem add_pattern_hs_words (b : Backend) (mp mp1 : rspamd_multipattern) (p : Option CStr)
    (h : rspamd_multipattern_add_pattern b mp p = some mp1)
    (hw : mp.hs_flags = List.replicate mp.hs_pats.length (hs_flag_word mp.flags)) :
    mp1.hs_flags = List.replicate mp1.hs_pats.length (hs_flag_word mp1.flags) := by
  cases p with
  | none => simp [rspamd_multipattern_add_pattern] at h
  | some p =>
    cases hc : mp.compiled with
    | true => simp [rspamd_multipattern_add_pattern, hc] at h
    | false =>
      cases b with
      | hyperscan =>
        rw [add_pattern_hyperscan mp p hc] at h
        simp only [Option.some.injEq] at h
        rw [← h]
        simp only [List.length_append, List.length_singleton, List.replicate_succ', hw]
      | acism =>
        rw [add_pattern_acism mp p hc] at h
        simp only [Option.some.injEq] at h
        rw [← h]
        exact hw

theorem create_full_loop_hs_words (b : Backend) (arr : List (Option CStr)) (todo : Nat) :
    ∀ (i : Nat) (mp mp1 : rspamd_multipattern), create_full_loop b arr todo i mp = some mp1 →
      mp.hs_flags = List.replicate mp.hs_pats.length (hs_flag_word mp.flags) →
      mp1.hs_flags = List.replicate mp1.hs_pats.length (hs_flag_word mp1.flags) := by
  induction todo with
  | zero =>
    intro i mp mp1 h hw
    simp only [create_full_loop, Option.some.injEq] at h
    rw [← h]
    exact hw
  | succ todo ih =>
    intro i mp mp1 h hw
    simp only [create_full_loop] at h
    split at h
    · simp at h
    · rename_i p _
      split at h
      · simp at h
      · rename_i mp2 hadd
        exact ih (i + 1) mp2 mp1 h (add_pattern_hs_words b mp mp2 p hadd hw)

theorem run_ctor_hs_words (b : Backend) (c : Ctor) (mp : rspamd_multipattern)
    (h : run_ctor b c = some mp) :
    mp.hs_flags = List.replicate mp.hs_pats.length (hs_flag_word mp.flags) := by
  cases c with
  | create flags =>
    simp only [run_ctor, Option.some.injEq] at h
    rw [← h]
    rfl
  | create_sized n flags =>
    simp only [run_ctor, rspamd_multipattern_create_sized] at h
    split at h
    · simp only [Option.some.injEq] at h
      rw [← h]
      rfl
    · simp at h
  | create_full patterns n flags =>
    simp only [run_ctor, rspamd_multipattern_create_full, rspamd_multipattern_create_sized] at h
    split at h
    · split at h
      · simp at h
      · rename_i arr
        exact create_full_loop_hs_words b arr n 0 _ mp h rfl
    · simp at h

theorem run_ops_hs_words (E : Engines) (b : Backend) (ops : List Op) :
    ∀ (mp mp1 : rspamd_multipattern), run_ops E b mp ops = some mp1 →
      mp.hs_flags = List.replicate mp.hs_pats.length (hs_flag_word mp.flags) →
      mp1.hs_flags = List.replicate mp1.hs_pats.length (hs_flag_word mp1.flags) := by
  induction ops with
  | nil =>
    intro mp mp1 h hw
    simp only [run_ops, Option.some.injEq] at h
    rw [← h]
    exact hw
  | cons op ops ih =>
    intro mp mp1 h hw
    simp only [run_ops] at h
    split at h
    · simp at h
    · rename_i mp2 hop
      refine ih mp2 mp1 h ?_
      cases op with
      | add_pattern p => exact add_pattern_hs_words b mp mp2 p hop hw
      | compile err =>
        simp only [run_op] at hop
        split at hop
        · simp at hop
        · rename_i r hr
          simp only [Option.some.injEq] at hop
          obtain ⟨_, h2, _, h4, _, h6, _⟩ := compile_keeps E b mp err r hr
          rw [← hop, h2, h4, h6]
          exact hw

/-- The stored pattern bytes do not depend on the flags of the set. -/
theorem add_patterns_bytes (ps : List CStr) :
    ∀ (mp1 mp2 : rspamd_multipattern), mp1.compiled = false → mp2.compiled = false →
      mp1.pats = mp2.pats →
      (add_patterns Backend.acism mp1 ps).map (fun mp => mp.pats) =
        (add_patterns Backend.acism mp2 ps).map (fun mp => mp.pats) := by
  induction ps with
  | nil =>
    intro mp1 mp2 _ _ h
    simp [add_patterns, h]
  | cons p ps ih =>
    intro mp1 mp2 h1 h2 h
    simp only [add_patterns, add_pattern_acism mp1 p h1, add_pattern_acism mp2 p h2]
    exact ih _ _ h1 h2 (by simp only [h])

/-- C13 (the flags of the set are what the backend sees).  Regex build: in
every set that a constructor and a sequence of `add_pattern` and `compile`
operations give, the table `hs_flags` holds one word per stored expression,
the same word for all; that word has the bit `HS_FLAG_CASELESS` exactly when
the flags of the set have `RSPAMD_MULTIPATTERN_ICASE`, the bit `HS_FLAG_UTF8`
exactly when they have `RSPAMD_MULTIPATTERN_UTF8`, and no bit besides these
two.  Trie build: the last argument of the `acism_lookup` call of a scan is
`flags & RSPAMD_MULTIPATTERN_ICASE`, nonzero exactly when the flags of the set
have that bit; and the pattern structures stored for a list of strings are
the same under any two flag values. -/
theorem C13_flags_reach_backend (E : Engines) (c : Ctor) (ops : List Op)
    (mp : rspamd_multipattern) (hrun : run E Backend.hyperscan c ops = some mp) :
    (mp.hs_flags = List.replicate mp.hs_pats.length (hs_flag_word mp.flags) ∧
      ∀ fl ∈ mp.hs_flags,
        fl = hs_flag_word mp.flags ∧
        (fl &&& HS_FLAG_CASELESS ≠ 0 ↔ mp.flags &&& RSPAMD_MULTIPATTERN_ICASE ≠ 0) ∧
        (fl &&& HS_FLAG_UTF8 ≠ 0 ↔ mp.flags &&& RSPAMD_MULTIPATTERN_UTF8 ≠ 0) ∧
        fl &&& (HS_FLAG_CASELESS ||| HS_FLAG_UTF8) = fl) ∧
    (∀ (E1 : Engines) (mp1 : rspamd_multipattern) (W : Type) (in_ : List Char) (len : Nat)
        (cb : rspamd_multipattern_cb_t W) (ud : Nat) (pnfound : Bool) (w : W),
      mp1.compiled = true →
      ∃ arg : Nat, arg = mp1.flags &&& RSPAMD_MULTIPATTERN_ICASE ∧
        (arg ≠ 0 ↔ mp1.flags &&& RSPAMD_MULTIPATTERN_ICASE ≠ 0) ∧
        match_events E1 Backend.acism mp1 in_ len =
          Except.ok (E1.acism_lookup mp1.t in_ len 0 arg) ∧
        ∃ r, r = acism_lookup E1 mp1.t in_ len rspamd_multipattern_acism_cb
            ({ mp := mp1, in_ := in_, len := len, cb := cb, ud := ud, nfound := 0, ret := 0 }, w)
            0 arg ∧
          rspamd_multipattern_lookup E1 Backend.acism mp1 in_ len cb ud pnfound w =
            some { ret := r.1, pnfound := if pnfound then some r.2.1.nfound else none,
                   world := r.2.2, mp := mp1 }) ∧
    (∀ (flags1 flags2 : Nat) (ps : List CStr),
      (add_patterns Backend.acism (rspamd_multipattern_create flags1) ps).map
          (fun m => m.pats) =
        (add_patterns Backend.acism (rspamd_multipattern_create flags2) ps).map
          (fun m => m.pats)) := by
  have hw : mp.hs_flags = List.replicate mp.hs_pats.length (hs_flag_word mp.flags) := by
    simp only [run] at hrun
    split at hrun
    · simp at hrun
    · rename_i mp0 hctor
      exact run_ops_hs_words E Backend.hyperscan ops mp0 mp hrun
        (run_ctor_hs_words Backend.hyperscan c mp0 hctor)
  refine ⟨⟨hw, fun fl hfl => ?_⟩, ?_, fun flags1 flags2 ps =>
    add_patterns_bytes ps _ _ rfl rfl rfl⟩
  · rw [hw] at hfl
    have hfl := List.eq_of_mem_replicate hfl
    rw [hfl]
    exact ⟨rfl, hs_flag_word_caseless mp.flags, hs_flag_word_utf8 mp.flags,
      hs_flag_word_mask mp.flags⟩
  · intro E1 mp1 W in_ len cb ud pnfound w hc
    refine ⟨_, rfl, Iff.rfl, rfl, _, rfl, ?_⟩
    simp only [rspamd_multipattern_lookup, hc, if_true]

/-- Witness of C13: a regex set with both flags and two patterns stores the
word `HS_FLAG_CASELESS | HS_FLAG_UTF8` twice. -/
theorem C13_flags_reach_backend_witness :
    run spec_engines Backend.hyperscan (Ctor.create 3)
        [Op.add_pattern (some "ab".toList), Op.add_pattern (some "cd".toList)] =
      some example_flagged_set ∧
    example_flagged_set.hs_flags =
      List.replicate example_flagged_set.hs_pats.length
        (hs_flag_word example_flagged_set.flags) ∧
    hs_flag_word example_flagged_set.flags = HS_FLAG_CASELESS ||| HS_FLAG_UTF8 :=
  ⟨by decide,
    (C13_flags_reach_backend spec_engines (Ctor.create 3)
      [Op.add_pattern (some "ab".toList), Op.add_pattern (some "cd".toList)]
      example_flagged_set (by decide)).1.1,
    by decide⟩

end Multipattern
